import Mathlib

/-!
Verification of the OData query-plan compiler of this repository.

The Lean definitions below are a shallow embedding of the Python sources
under mcp_servers/mcp-1c-hack: the filter renderer (filter_builder.py),
the URL builder (url_builder.py), the plan validator/repairer
(plan_validator.py), the plan parser and retry-wrapped clients
(llm_client.py, odata_client.py) and the legacy parameter normalization
(query_tool.py).  Python strings are modelled as Lean strings; the
handful of Python standard-library primitives the code relies on
(str.strip, str.lower, urllib quote, json.loads, datetime.strptime) are
modelled explicitly next to the code that uses them, restricted to the
behavior the embedded code exercises.
-/

/-! ## Python string primitives -/

/-- Whitespace recognized by the model of str.strip / str.isspace
(ASCII whitespace; the embedded code only ever strips these). -/
def pyIsSpace (c : Char) : Bool :=
  c = ' ' || c = '\t' || c = '\n' || c = '\r' || c = '\x0b' || c = '\x0c'

/-- Model of str.lower on a single character (ASCII range). -/
def asciiLower (c : Char) : Char :=
  if 'A' ≤ c ∧ c ≤ 'Z' then Char.ofNat (c.toNat + 32) else c

/-- Model of str.lower on a character list. -/
def pyLowerL (l : List Char) : List Char := l.map asciiLower

/-- Model of str.lower. -/
def pyLower (s : String) : String := ⟨pyLowerL s.data⟩

/-- Drop trailing characters satisfying p (helper for str.strip). -/
def dropRightWhileL (p : Char → Bool) (l : List Char) : List Char :=
  (l.reverse.dropWhile p).reverse

/-- Model of str.strip with no arguments, on a character list. -/
def stripL (l : List Char) : List Char :=
  dropRightWhileL pyIsSpace (l.dropWhile pyIsSpace)

/-- Model of str.strip with no arguments. -/
def pyStrip (s : String) : String := ⟨stripL s.data⟩

/-- Model of str.startswith on strings. -/
def pyStartsWith (s pre : String) : Bool := pre.data.isPrefixOf s.data

/-- Model of str.endswith on strings. -/
def pyEndsWith (s post : String) : Bool := post.data.isSuffixOf s.data

/-! ## url_builder.normalize_entity_name -/

/-- The known 1C type prefixes, in the order the source iterates them. -/
def ENTITY_PREFIXES : List (List Char) :=
  ["Catalog".data, "Document".data, "InformationRegister".data,
   "AccumulationRegister".data, "ChartOfAccounts".data]

/-- First prefix of the list whose lowercase form is a prefix of the
lowercase entity (models the for loop in normalize_entity_name). -/
def findPrefixAux : List (List Char) → List Char → Option (List Char)
  | [], _ => none
  | p :: ps, e =>
      if (pyLowerL p).isPrefixOf (pyLowerL e) then some p else findPrefixAux ps e

/-- Model of url_builder.normalize_entity_name, on character lists. -/
def normalizeEntityL (l : List Char) : List Char :=
  if l = [] then l
  else
    let e := stripL l
    match findPrefixAux ENTITY_PREFIXES e with
    | some p => p ++ '_' :: (e.drop p.length).dropWhile (· == '_')
    | none => e

/-- Model of url_builder.normalize_entity_name. -/
def normalize_entity_name (s : String) : String := ⟨normalizeEntityL s.data⟩

/-! ### Lemmas about stripping -/

theorem dropWhile_head_not {p : Char → Bool} :
    ∀ (l : List Char) (a : Char), (l.dropWhile p).head? = some a → p a = false := by
  intro l
  induction l with
  | nil => intro a h; simp [List.dropWhile] at h
  | cons x xs ih =>
      intro a h
      by_cases hx : p x
      · rw [List.dropWhile_cons_of_pos hx] at h; exact ih a h
      · rw [List.dropWhile_cons_of_neg hx] at h
        simp at h
        subst h
        simpa using hx

theorem dropWhile_eq_self_of_head {p : Char → Bool} (l : List Char)
    (h : ∀ a, l.head? = some a → p a = false) : l.dropWhile p = l := by
  cases l with
  | nil => rfl
  | cons x xs =>
      have hx : p x = false := h x (by simp)
      simp [List.dropWhile, hx]

theorem stripL_head_not (l : List Char) (a : Char)
    (h : (stripL l).head? = some a) : pyIsSpace a = false := by
  unfold stripL dropRightWhileL at h
  rcases List.dropWhile_suffix (l := (l.dropWhile pyIsSpace).reverse) pyIsSpace
    with ⟨t, ht⟩
  have hsplit : l.dropWhile pyIsSpace =
      ((l.dropWhile pyIsSpace).reverse.dropWhile pyIsSpace).reverse ++ t.reverse := by
    have := congrArg List.reverse ht
    simpa [List.reverse_append, eq_comm] using this
  have hhead : (l.dropWhile pyIsSpace).head? = some a := by
    rcases heq : ((l.dropWhile pyIsSpace).reverse.dropWhile pyIsSpace).reverse
      with _ | ⟨b, bs⟩
    · rw [heq] at h; simp at h
    · rw [heq] at h
      simp only [List.head?_cons, Option.some.injEq] at h
      rw [hsplit, heq, ← h]
      simp
  exact dropWhile_head_not l a hhead

theorem stripL_last_not (l : List Char) (a : Char)
    (h : (stripL l).getLast? = some a) : pyIsSpace a = false := by
  unfold stripL dropRightWhileL at h
  rw [List.getLast?_reverse] at h
  exact dropWhile_head_not _ a h

theorem stripL_of_clean (l : List Char)
    (hh : ∀ a, l.head? = some a → pyIsSpace a = false)
    (hl : ∀ a, l.getLast? = some a → pyIsSpace a = false) :
    stripL l = l := by
  unfold stripL dropRightWhileL
  rw [dropWhile_eq_self_of_head l hh]
  rw [dropWhile_eq_self_of_head l.reverse (by
    intro a ha
    exact hl a (by rwa [← List.head?_reverse]))]
  exact List.reverse_reverse l

theorem stripL_idem (l : List Char) : stripL (stripL l) = stripL l :=
  stripL_of_clean _ (stripL_head_not l) (stripL_last_not l)

theorem dropWhile_idem {p : Char → Bool} (l : List Char) :
    (l.dropWhile p).dropWhile p = l.dropWhile p :=
  dropWhile_eq_self_of_head _ (dropWhile_head_not l)

theorem findPrefixAux_mem :
    ∀ (ps : List (List Char)) (e p : List Char), findPrefixAux ps e = some p → p ∈ ps := by
  intro ps
  induction ps with
  | nil => intro e p h; simp [findPrefixAux] at h
  | cons q qs ih =>
      intro e p h
      unfold findPrefixAux at h
      by_cases hq : (pyLowerL q).isPrefixOf (pyLowerL e)
      · simp [hq] at h; simp [h]
      · simp [hq] at h
        exact List.mem_cons_of_mem q (ih e p h)

theorem pyLowerL_append (xs ys : List Char) :
    pyLowerL (xs ++ ys) = pyLowerL xs ++ pyLowerL ys := by
  simp [pyLowerL]

theorem pyLowerL_cons (x : Char) (xs : List Char) :
    pyLowerL (x :: xs) = asciiLower x :: pyLowerL xs := by
  simp [pyLowerL]

theorem isPrefixOf_append_self (xs ys : List Char) : xs.isPrefixOf (xs ++ ys) = true := by
  rw [List.isPrefixOf_iff_prefix]
  exact List.prefix_append xs ys

theorem not_prefixOf_head (a b : Char) (as bs : List Char) (h : (a == b) = false) :
    (a :: as).isPrefixOf (b :: bs) = false := by
  show (a == b && as.isPrefixOf bs) = false
  simp [h]

theorem not_prefixOf_second (a c d : Char) (as bs : List Char) (h : (c == d) = false) :
    (a :: c :: as).isPrefixOf (a :: d :: bs) = false := by
  show (a == a && (c :: as).isPrefixOf (d :: bs)) = false
  rw [not_prefixOf_head c d as bs h]
  simp

theorem not_prefixOf_append_head (a b : Char) (as bs ys : List Char) (h : (a == b) = false) :
    (a :: as).isPrefixOf ((b :: bs) ++ ys) = false := by
  rw [List.cons_append]
  exact not_prefixOf_head a b as (bs ++ ys) h

theorem not_prefixOf_append_second (a c d : Char) (as bs ys : List Char)
    (h : (c == d) = false) :
    (a :: c :: as).isPrefixOf ((a :: d :: bs) ++ ys) = false := by
  rw [List.cons_append, List.cons_append]
  exact not_prefixOf_second a c d as (bs ++ ys) h

theorem pyLowerL_sep (X rest : List Char) :
    pyLowerL (X ++ '_' :: rest) = pyLowerL X ++ '_' :: pyLowerL rest := by
  rw [pyLowerL_append, pyLowerL_cons]
  have : asciiLower '_' = '_' := by decide
  rw [this]

theorem entityPrefixes_nonempty (p : List Char) (hp : p ∈ ENTITY_PREFIXES) : p ≠ [] := by
  simp only [ENTITY_PREFIXES, List.mem_cons, List.not_mem_nil, or_false] at hp
  rcases hp with rfl | rfl | rfl | rfl | rfl <;> simp

theorem entityPrefixes_head_not_space (p : List Char) (hp : p ∈ ENTITY_PREFIXES) :
    ∀ a, p.head? = some a → pyIsSpace a = false := by
  simp only [ENTITY_PREFIXES, List.mem_cons, List.not_mem_nil, or_false] at hp
  rcases hp with rfl | rfl | rfl | rfl | rfl <;> (intro a ha; simp at ha; subst ha; decide)

theorem findPrefixAux_self (p : List Char) (hp : p ∈ ENTITY_PREFIXES) (X : List Char) :
    findPrefixAux ENTITY_PREFIXES (p ++ '_' :: X) = some p := by
  simp only [ENTITY_PREFIXES, List.mem_cons, List.not_mem_nil, or_false] at hp
  have hcat : pyLowerL "Catalog".data = "catalog".data := by decide
  have hdoc : pyLowerL "Document".data = "document".data := by decide
  have hinf : pyLowerL "InformationRegister".data = "informationregister".data := by decide
  have hacc : pyLowerL "AccumulationRegister".data = "accumulationregister".data := by decide
  have hcha : pyLowerL "ChartOfAccounts".data = "chartofaccounts".data := by decide
  rcases hp with rfl | rfl | rfl | rfl | rfl <;>
    simp only [ENTITY_PREFIXES, findPrefixAux, pyLowerL_sep, hcat, hdoc, hinf, hacc, hcha]
  · rw [show ("catalog".data).isPrefixOf ("catalog".data ++ '_' :: pyLowerL X) = true from
      isPrefixOf_append_self _ _]
    simp
  · rw [show ("catalog".data).isPrefixOf ("document".data ++ '_' :: pyLowerL X) = false from
      not_prefixOf_append_head _ _ _ _ _ (by decide)]
    rw [show ("document".data).isPrefixOf ("document".data ++ '_' :: pyLowerL X) = true from
      isPrefixOf_append_self _ _]
    simp
  · rw [show ("catalog".data).isPrefixOf ("informationregister".data ++ '_' :: pyLowerL X)
        = false from not_prefixOf_append_head _ _ _ _ _ (by decide)]
    rw [show ("document".data).isPrefixOf ("informationregister".data ++ '_' :: pyLowerL X)
        = false from not_prefixOf_append_head _ _ _ _ _ (by decide)]
    rw [show ("informationregister".data).isPrefixOf
        ("informationregister".data ++ '_' :: pyLowerL X) = true from isPrefixOf_append_self _ _]
    simp
  · rw [show ("catalog".data).isPrefixOf ("accumulationregister".data ++ '_' :: pyLowerL X)
        = false from not_prefixOf_append_head _ _ _ _ _ (by decide)]
    rw [show ("document".data).isPrefixOf ("accumulationregister".data ++ '_' :: pyLowerL X)
        = false from not_prefixOf_append_head _ _ _ _ _ (by decide)]
    rw [show ("informationregister".data).isPrefixOf
        ("accumulationregister".data ++ '_' :: pyLowerL X) = false from
      not_prefixOf_append_head _ _ _ _ _ (by decide)]
    rw [show ("accumulationregister".data).isPrefixOf
        ("accumulationregister".data ++ '_' :: pyLowerL X) = true from isPrefixOf_append_self _ _]
    simp
  · rw [show ("catalog".data).isPrefixOf ("chartofaccounts".data ++ '_' :: pyLowerL X)
        = false from not_prefixOf_append_second _ _ _ _ _ _ (by decide)]
    rw [show ("document".data).isPrefixOf ("chartofaccounts".data ++ '_' :: pyLowerL X)
        = false from not_prefixOf_append_head _ _ _ _ _ (by decide)]
    rw [show ("informationregister".data).isPrefixOf
        ("chartofaccounts".data ++ '_' :: pyLowerL X) = false from
      not_prefixOf_append_head _ _ _ _ _ (by decide)]
    rw [show ("accumulationregister".data).isPrefixOf
        ("chartofaccounts".data ++ '_' :: pyLowerL X) = false from
      not_prefixOf_append_head _ _ _ _ _ (by decide)]
    rw [show ("chartofaccounts".data).isPrefixOf
        ("chartofaccounts".data ++ '_' :: pyLowerL X) = true from isPrefixOf_append_self _ _]
    simp

theorem getLast_append_cons (l₁ l₂ : List Char) (b : Char) :
    (l₁ ++ b :: l₂).getLast? = (b :: l₂).getLast? := by
  rw [List.getLast?_append]
  rcases h : (b :: l₂).getLast? with _ | x
  · exact absurd (List.getLast?_eq_none_iff.mp h) (by simp)
  · simp

theorem rest_suffix_getLast (e : List Char) (n : Nat) :
    ((e.drop n).dropWhile (· == '_')) ≠ [] →
    ((e.drop n).dropWhile (· == '_')).getLast? = e.getLast? := by
  intro hne
  have h1 : (e.drop n).dropWhile (· == '_') <:+ e :=
    List.IsSuffix.trans (List.dropWhile_suffix _) (List.drop_suffix n e)
  rcases h1 with ⟨t, ht⟩
  have h2 := congrArg List.getLast? ht
  rw [List.getLast?_append] at h2
  rcases heq : ((e.drop n).dropWhile (· == '_')).getLast? with _ | a
  · exact absurd (List.getLast?_eq_none_iff.mp heq) hne
  · rw [heq] at h2
    simp only [Option.or] at h2
    rw [← h2]

theorem normalizeEntityL_eq_none (l : List Char) (h0 : l ≠ [])
    (hf : findPrefixAux ENTITY_PREFIXES (stripL l) = none) :
    normalizeEntityL l = stripL l := by
  unfold normalizeEntityL
  rw [if_neg h0]
  show (match findPrefixAux ENTITY_PREFIXES (stripL l) with
        | some p => p ++ '_' :: ((stripL l).drop p.length).dropWhile (· == '_')
        | none => stripL l) = stripL l
  rw [hf]

theorem normalizeEntityL_eq_some (l : List Char) (h0 : l ≠ []) (p : List Char)
    (hf : findPrefixAux ENTITY_PREFIXES (stripL l) = some p) :
    normalizeEntityL l = p ++ '_' :: ((stripL l).drop p.length).dropWhile (· == '_') := by
  unfold normalizeEntityL
  rw [if_neg h0]
  show (match findPrefixAux ENTITY_PREFIXES (stripL l) with
        | some p => p ++ '_' :: ((stripL l).drop p.length).dropWhile (· == '_')
        | none => stripL l) = _
  rw [hf]

theorem normalizeEntityL_fix (p e : List Char)
    (he : stripL e = e)
    (hp : p ∈ ENTITY_PREFIXES) :
    normalizeEntityL (p ++ '_' :: (e.drop p.length).dropWhile (· == '_'))
      = p ++ '_' :: (e.drop p.length).dropWhile (· == '_') := by
  have hpne : p ≠ [] := entityPrefixes_nonempty p hp
  rcases List.exists_cons_of_ne_nil hpne with ⟨c, cs, hpc⟩
  have hrne : p ++ '_' :: (e.drop p.length).dropWhile (· == '_') ≠ [] := by
    simp [hpc]
  have hstrip : stripL (p ++ '_' :: (e.drop p.length).dropWhile (· == '_'))
      = p ++ '_' :: (e.drop p.length).dropWhile (· == '_') := by
    apply stripL_of_clean
    · intro a ha
      apply entityPrefixes_head_not_space p hp a
      rw [hpc] at ha ⊢
      simp only [List.cons_append, List.head?_cons, Option.some.injEq] at ha
      simp only [List.head?_cons, Option.some.injEq]
      exact ha
    · intro a ha
      rcases hrest : (e.drop p.length).dropWhile (· == '_') with _ | ⟨b, bs⟩
      · rw [hrest] at ha
        rw [getLast_append_cons p [] '_'] at ha
        simp at ha
        subst ha
        decide
      · rw [hrest] at ha
        rw [getLast_append_cons, List.getLast?_cons_cons, ← hrest] at ha
        rw [rest_suffix_getLast e p.length (by rw [hrest]; simp)] at ha
        exact stripL_last_not e a (by rwa [he])
  rw [normalizeEntityL_eq_some _ hrne p (by rw [hstrip]; exact findPrefixAux_self p hp _)]
  rw [hstrip, List.drop_left]
  rw [List.dropWhile_cons_of_pos (by decide)]
  rw [dropWhile_idem]

theorem normalizeEntityL_idem (l : List Char) :
    normalizeEntityL (normalizeEntityL l) = normalizeEntityL l := by
  by_cases h0 : l = []
  · subst h0; rfl
  · rcases hf : findPrefixAux ENTITY_PREFIXES (stripL l) with _ | p
    · rw [normalizeEntityL_eq_none l h0 hf]
      by_cases h2 : stripL l = []
      · rw [h2]; rfl
      · rw [normalizeEntityL_eq_none _ h2 (by rw [stripL_idem]; exact hf)]
        exact stripL_idem l
    · have hp : p ∈ ENTITY_PREFIXES := findPrefixAux_mem _ _ _ hf
      rw [normalizeEntityL_eq_some l h0 p hf]
      exact normalizeEntityL_fix p (stripL l) (stripL_idem l) hp

/-- C9: Entity-name normalization is idempotent: for every input string s,
normalize_entity_name (normalize_entity_name s) equals normalize_entity_name s;
in particular normalizing Catalog_Foo twice yields Catalog_Foo. -/
theorem normalize_entity_name_idempotent :
    (∀ s : String, normalize_entity_name (normalize_entity_name s) = normalize_entity_name s)
    ∧ normalize_entity_name (normalize_entity_name "Catalog_Foo") = "Catalog_Foo" := by
  constructor
  · intro s
    exact congrArg String.mk (normalizeEntityL_idem s.data)
  · decide

/-! ## models.py: the filter AST -/

/-- Model of models.FilterOperator (string enum). -/
inductive FilterOperator where
  | eq | ne | gt | lt | ge | le
deriving DecidableEq

/-- The value attribute of the FilterOperator enum members. -/
def FilterOperator.val : FilterOperator → String
  | .eq => "eq" | .ne => "ne" | .gt => "gt" | .lt => "lt" | .ge => "ge" | .le => "le"

/-- Model of the Python values a condition can carry (str, int, bool, None,
plus native datetime.datetime and datetime.date values, which the
renderer handles defensively in _normalize_datetime). Floats are not
modelled; no claim depends on them. -/
inductive FValue where
  | str (s : String)
  | int (n : Int)
  | bool (b : Bool)
  | none
  | pydatetime (y mo d h mi s micro : Nat)
  | pydate (y mo d : Nat)
deriving DecidableEq

/-- Model of Python str(value) for the modelled values. -/
def pyStr : FValue → String
  | .str s => s
  | .int n => toString n
  | .bool b => if b then "True" else "False"
  | .none => "None"
  | .pydatetime y mo d h mi s _ =>
      toString y ++ "-" ++ toString mo ++ "-" ++ toString d ++ " "
        ++ toString h ++ ":" ++ toString mi ++ ":" ++ toString s
  | .pydate y mo d => toString y ++ "-" ++ toString mo ++ "-" ++ toString d

/-- Model of Python truthiness for the modelled values. -/
def pyTruthy : FValue → Bool
  | .str s => s ≠ ""
  | .int n => n ≠ 0
  | .bool b => b
  | .none => false
  | .pydatetime _ _ _ _ _ _ _ => true
  | .pydate _ _ _ => true

/-- Model of models.FilterCondition. -/
structure FilterCondition where
  field : String
  operator : FilterOperator
  value : FValue
  value_type : String
deriving DecidableEq

mutual
/-- A node of the filter AST: a leaf condition or a nested group
(models the FilterCondition | FilterGroup union in conditions). -/
inductive FNode where
  | cond (c : FilterCondition)
  | group (logic : String) (conditions : FNodes)
/-- A sequence of filter AST nodes (the conditions list of a group). -/
inductive FNodes where
  | nil
  | cons (head : FNode) (tail : FNodes)
end

/-- Emptiness of a node sequence (Python truthiness of the list). -/
def FNodes.isEmpty : FNodes → Bool
  | .nil => true
  | .cons _ _ => false

/-- The plain list of members of a node sequence. -/
def FNodes.toList : FNodes → List FNode
  | .nil => []
  | .cons h t => h :: t.toList

/-- Model of models.FilterGroup. -/
structure FilterGroup where
  logic : String
  conditions : FNodes

/-! ## filter_builder.ODataFilterBuilder._normalize_datetime -/

/-- Numeric value of a decimal digit character. -/
def digitVal (c : Char) : Nat := c.toNat - '0'.toNat

/-- Model of one numeric strptime directive: a two-digit match in
[lo2, hi2] is preferred, else a single digit in [lo1, hi1] (mirrors the
alternation order of the CPython strptime regular expressions; in the
six formats used here a separator or end of input always follows, so
no further backtracking can occur). -/
def parseNum2 (lo2 hi2 lo1 hi1 : Nat) : List Char → Option (Nat × List Char)
  | c₁ :: c₂ :: rest =>
      if c₁.isDigit && c₂.isDigit then
        let v := digitVal c₁ * 10 + digitVal c₂
        if lo2 ≤ v && v ≤ hi2 then some (v, rest)
        else if lo1 ≤ digitVal c₁ && digitVal c₁ ≤ hi1 then some (digitVal c₁, c₂ :: rest)
        else Option.none
      else if c₁.isDigit && lo1 ≤ digitVal c₁ && digitVal c₁ ≤ hi1 then
        some (digitVal c₁, c₂ :: rest)
      else Option.none
  | [c₁] =>
      if c₁.isDigit && lo1 ≤ digitVal c₁ && digitVal c₁ ≤ hi1 then some (digitVal c₁, [])
      else Option.none
  | [] => Option.none

/-- Model of the %Y strptime directive: exactly four digits. -/
def parseYear4 : List Char → Option (Nat × List Char)
  | c₁ :: c₂ :: c₃ :: c₄ :: rest =>
      if c₁.isDigit && c₂.isDigit && c₃.isDigit && c₄.isDigit then
        some (((digitVal c₁ * 10 + digitVal c₂) * 10 + digitVal c₃) * 10 + digitVal c₄, rest)
      else Option.none
  | _ => Option.none

/-- Model of a literal character in a strptime format (strptime compiles
its regex with IGNORECASE, so the literal T also matches t). -/
def parseLitCI (c : Char) : List Char → Option (List Char)
  | x :: rest => if asciiLower x = asciiLower c then some rest else Option.none
  | [] => Option.none

/-- Model of a whitespace run in a strptime format (format whitespace is
compiled to one-or-more whitespace). -/
def parseWS (l : List Char) : Option (List Char) :=
  match l with
  | x :: rest => if pyIsSpace x then some (rest.dropWhile pyIsSpace) else Option.none
  | [] => Option.none

/-- Parsed calendar fields, before datetime construction checks. -/
structure DTParts where
  y : Nat
  mo : Nat
  d : Nat
  h : Nat
  mi : Nat
  s : Nat
deriving DecidableEq

/-- The %m directive. -/
def parseMonth (l : List Char) : Option (Nat × List Char) := parseNum2 1 12 1 9 l

/-- The %d directive. -/
def parseDay (l : List Char) : Option (Nat × List Char) := parseNum2 1 31 1 9 l

/-- The %H directive. -/
def parseHour (l : List Char) : Option (Nat × List Char) := parseNum2 0 23 0 9 l

/-- The %M directive. -/
def parseMinute (l : List Char) : Option (Nat × List Char) := parseNum2 0 59 0 9 l

/-- The %S directive (the strptime regex also admits leap seconds 60 and
61; datetime construction rejects them afterwards). -/
def parseSecond (l : List Char) : Option (Nat × List Char) := parseNum2 0 61 0 9 l

/-- The %Y-%m-%d part of the ISO formats. -/
def parseIsoDate (l : List Char) : Option ((Nat × Nat × Nat) × List Char) := do
  let (y, l) ← parseYear4 l
  let l ← parseLitCI '-' l
  let (mo, l) ← parseMonth l
  let l ← parseLitCI '-' l
  let (d, l) ← parseDay l
  pure ((y, mo, d), l)

/-- The %d.%m.%Y part of the dotted formats. -/
def parseDottedDate (l : List Char) : Option ((Nat × Nat × Nat) × List Char) := do
  let (d, l) ← parseDay l
  let l ← parseLitCI '.' l
  let (mo, l) ← parseMonth l
  let l ← parseLitCI '.' l
  let (y, l) ← parseYear4 l
  pure ((y, mo, d), l)

/-- The %H:%M[:%S] part; withSec selects whether :%S is present. -/
def parseTimePart (withSec : Bool) (l : List Char) : Option ((Nat × Nat × Nat) × List Char) := do
  let (h, l) ← parseHour l
  let l ← parseLitCI ':' l
  let (mi, l) ← parseMinute l
  if withSec then do
    let l ← parseLitCI ':' l
    let (s, l) ← parseSecond l
    pure ((h, mi, s), l)
  else
    pure ((h, mi, 0), l)

/-- Days in a month, with the Gregorian leap rule (as datetime uses). -/
def daysInMonth (y mo : Nat) : Nat :=
  if mo = 2 then
    if (y % 4 = 0 && y % 100 ≠ 0) || y % 400 = 0 then 29 else 28
  else if mo = 4 || mo = 6 || mo = 9 || mo = 11 then 30
  else 31

/-- The checks the datetime constructor performs on parsed fields
(MINYEAR is 1; leap seconds are rejected). -/
def validDT (p : DTParts) : Bool :=
  1 ≤ p.y && p.d ≤ daysInMonth p.y p.mo && p.s ≤ 59

/-- One entry of the pattern list in _normalize_datetime: parse the whole
input with the given format and build the datetime, returning none on
any failure (strptime ValueError or constructor ValueError). -/
def tryFormat (dateP : List Char → Option ((Nat × Nat × Nat) × List Char))
    (timeSep : Option Char) (withSec : Bool) (addTime : Bool)
    (l : List Char) : Option DTParts := do
  let ((y, mo, d), l) ← dateP l
  let (t, l) ←
    match timeSep with
    | Option.none => pure ((0, 0, 0), l)
    | some sep => do
        let l ←
          if sep = ' ' then parseWS l
          else parseLitCI sep l
        parseTimePart withSec l
  if l = [] then
    let p : DTParts := ⟨y, mo, d, t.1, t.2.1, t.2.2⟩
    if validDT p then
      some (if addTime then { p with h := 0, mi := 0, s := 0 } else p)
    else Option.none
  else Option.none

/-- The pattern list of _normalize_datetime, in source order; the Bool is
the add_time flag of the source (which, when set, zeroes the time). -/
def tryPatterns (l : List Char) : Option DTParts :=
  match tryFormat parseIsoDate (some 'T') true false l with
  | some p => some p
  | Option.none =>
  match tryFormat parseIsoDate (some 'T') false true l with
  | some p => some p
  | Option.none =>
  match tryFormat parseIsoDate Option.none false true l with
  | some p => some p
  | Option.none =>
  match tryFormat parseDottedDate (some ' ') true false l with
  | some p => some p
  | Option.none =>
  match tryFormat parseDottedDate (some ' ') false false l with
  | some p => some p
  | Option.none => tryFormat parseDottedDate Option.none false true l

/-- Zero-padded decimal rendering of width 2. -/
def pad2 (n : Nat) : String := if n < 10 then "0" ++ toString n else toString n

/-- Zero-padded decimal rendering of width 4. -/
def pad4 (n : Nat) : String :=
  if n < 10 then "000" ++ toString n
  else if n < 100 then "00" ++ toString n
  else if n < 1000 then "0" ++ toString n
  else toString n

/-- datetime.isoformat with microsecond zeroed, as the source renders it. -/
def isoformat (p : DTParts) : String :=
  pad4 p.y ++ "-" ++ pad2 p.mo ++ "-" ++ pad2 p.d ++ "T"
    ++ pad2 p.h ++ ":" ++ pad2 p.mi ++ ":" ++ pad2 p.s

/-- Split a character list at the first occurrence of c (str.split(c, 1)).
Returns none when c does not occur. -/
def splitFirst (c : Char) : List Char → Option (List Char × List Char)
  | [] => Option.none
  | x :: rest =>
      if x = c then some ([], rest)
      else match splitFirst c rest with
        | some (a, b) => some (x :: a, b)
        | Option.none => Option.none

/-- Helper for splitAll: current piece is accumulated in reverse. -/
def splitAllAux (c : Char) : List Char → List Char → List (List Char)
  | [], acc => [acc.reverse]
  | x :: rest, acc =>
      if x = c then acc.reverse :: splitAllAux c rest []
      else splitAllAux c rest (x :: acc)

/-- Full split on a character (str.split(c)). -/
def splitAll (c : Char) (l : List Char) : List (List Char) := splitAllAux c l []

/-- Model of ODataFilterBuilder._normalize_datetime.  Native datetime and
date values are rendered directly; strings are tried against the six
strptime patterns in source order; otherwise, if a capital T occurs in
the raw text, the source pads the time with :00 pieces without any
validation; otherwise it raises ValueError naming the offending value. -/
def normalizeDatetime (value : FValue) : Except String String :=
  match value with
  | .pydatetime y mo d h mi s _ => .ok (isoformat ⟨y, mo, d, h, mi, s⟩)
  | .pydate y mo d => .ok (isoformat ⟨y, mo, d, 0, 0, 0⟩)
  | v =>
    let raw := stripL (pyStr v).data
    match tryPatterns raw with
    | some p => .ok (isoformat p)
    | Option.none =>
      if 'T' ∈ raw then
        match splitFirst 'T' raw with
        | some (datePart, timePart) =>
            let bits := splitAll ':' timePart
            let padded := bits ++ List.replicate (3 - bits.length) "00".data
            .ok ⟨datePart ++ 'T' :: (List.intercalate [':'] (padded.take 3))⟩
        | Option.none => .error ("Unrecognized datetime format: " ++ pyStr v)
      else .error ("Unrecognized datetime format: " ++ pyStr v)

/-! ## filter_builder.ODataFilterBuilder rendering -/

/-- Double every single quote (str.replace of a quote by two quotes). -/
def escapeQuotes (l : List Char) : List Char :=
  l.flatMap (fun c => if c = '\'' then ['\'', '\''] else [c])

/-- Model of ODataFilterBuilder._format_value. -/
def formatValue (value : FValue) (value_type : String) : Except String String :=
  if value_type = "string" then
    .ok ⟨'\'' :: escapeQuotes (pyStr value).data ++ ['\'']⟩
  else if value_type = "datetime" then
    match normalizeDatetime value with
    | .ok n => .ok ("datetime'" ++ n ++ "'")
    | .error e => .error e
  else if value_type = "guid" then
    .ok ("guid'" ++ pyStr value ++ "'")
  else if value_type = "boolean" then
    .ok (if pyTruthy value then "true" else "false")
  else
    .ok (pyStr value)

/-- Model of ODataFilterBuilder._render_condition. -/
def renderCondition (c : FilterCondition) : Except String String :=
  match formatValue c.value c.value_type with
  | .ok v => .ok (c.field ++ " " ++ c.operator.val ++ " " ++ v)
  | .error e => .error e

/-- Model of str.join. -/
def pyJoin (sep : String) : List String → String
  | [] => ""
  | [x] => x
  | x :: xs => x ++ sep ++ pyJoin sep xs

/-- The parenthesis wrapper of _build_group: a part is wrapped unless it
already starts with ( and ends with ). -/
def pyWrap (p : String) : String :=
  if pyStartsWith p "(" && pyEndsWith p ")" then p else "(" ++ p ++ ")"

/-- The tail of _build_group: empty parts give the empty string, a single
part is returned unwrapped, two or more parts are wrapped and joined
with the group logic keyword. -/
def groupJoin (logic : String) (parts : List String) : String :=
  match parts with
  | [] => ""
  | [p] => p
  | _ => pyJoin (" " ++ logic ++ " ") (parts.map pyWrap)

/-- The loop of _build_group: renders members in order; a nested group
rendering to the empty string contributes nothing, any other nested
group is parenthesized; leaf conditions are rendered directly.  Errors
raised while rendering a value propagate. -/
def renderParts : FNodes → Except String (List String)
  | .nil => .ok []
  | .cons (.cond c) rest =>
      match renderCondition c with
      | .error e => .error e
      | .ok r =>
          match renderParts rest with
          | .error e => .error e
          | .ok tail => .ok (r :: tail)
  | .cons (.group l cs) rest =>
      match renderParts cs with
      | .error e => .error e
      | .ok nparts =>
          let nested := groupJoin l nparts
          match renderParts rest with
          | .error e => .error e
          | .ok tail => .ok (if nested = "" then tail else ("(" ++ nested ++ ")") :: tail)

/-- Model of ODataFilterBuilder._build_group. -/
def buildGroup (g : FilterGroup) : Except String String :=
  match renderParts g.conditions with
  | .ok parts => .ok (groupJoin g.logic parts)
  | .error e => .error e

/-- Model of ODataFilterBuilder.build. -/
def filterBuild (g : Option FilterGroup) : Except String String :=
  match g with
  | Option.none => .ok ""
  | some g => if g.conditions.isEmpty then .ok "" else buildGroup g

mutual
/-- Size measure on filter nodes, for strong induction. -/
def sizeN : FNode → Nat
  | .cond _ => 1
  | .group _ cs => 1 + sizeL cs
/-- Size measure on node sequences, for strong induction. -/
def sizeL : FNodes → Nat
  | .nil => 1
  | .cons h t => 1 + sizeN h + sizeL t
end

theorem fnodes_induction (motive : FNodes → Prop)
    (nil : motive .nil)
    (condCase : ∀ c rest, motive rest → motive (.cons (.cond c) rest))
    (groupCase : ∀ l cs rest, motive cs → motive rest → motive (.cons (.group l cs) rest)) :
    ∀ ns, motive ns := by
  have key : ∀ k ns, sizeL ns ≤ k → motive ns := by
    intro k
    induction k with
    | zero => intro ns h; cases ns <;> simp [sizeL] at h
    | succ k ih =>
        intro ns h
        match ns with
        | .nil => exact nil
        | .cons (.cond c) rest =>
            refine condCase c rest (ih rest ?_)
            simp [sizeL, sizeN] at h
            omega
        | .cons (.group l cs) rest =>
            refine groupCase l cs rest (ih cs ?_) (ih rest ?_) <;>
              (simp [sizeL, sizeN] at h ⊢; omega)
  intro ns
  exact key (sizeL ns) ns (Nat.le_refl _)

mutual
/-- True when a node is a group all of whose members are, recursively,
empty groups (no leaf condition anywhere). -/
def allEmptyN : FNode → Bool
  | .cond _ => false
  | .group _ cs => allEmptyL cs
/-- True when every member of the sequence is an all-empty group. -/
def allEmptyL : FNodes → Bool
  | .nil => true
  | .cons h t => allEmptyN h && allEmptyL t
end

theorem pyWrap_paren (p : String) :
    pyStartsWith (pyWrap p) "(" = true ∧ pyEndsWith (pyWrap p) ")" = true := by
  unfold pyWrap
  by_cases h : (pyStartsWith p "(" && pyEndsWith p ")") = true
  · rw [if_pos h]
    exact ⟨(Bool.and_eq_true _ _ |>.mp h).1, (Bool.and_eq_true _ _ |>.mp h).2⟩
  · rw [if_neg h]
    constructor
    · unfold pyStartsWith
      rw [List.isPrefixOf_iff_prefix]
      show ("(".data) <+: (("(" ++ p ++ ")").data)
      rw [String.data_append, String.data_append, List.append_assoc]
      exact List.prefix_append _ _
    · unfold pyEndsWith
      rw [List.isSuffixOf_iff_suffix]
      show (")".data) <:+ (("(" ++ p ++ ")").data)
      rw [String.data_append]
      exact List.suffix_append _ _

theorem renderCondition_ok_ne (c : FilterCondition) (r : String)
    (h : renderCondition c = .ok r) : r ≠ "" := by
  unfold renderCondition at h
  cases hf : formatValue c.value c.value_type with
  | error e => rw [hf] at h; exact absurd h (by simp)
  | ok v =>
      rw [hf] at h
      simp only [Except.ok.injEq] at h
      subst h
      intro he
      have hd := congrArg String.data he
      rw [String.data_append, String.data_append, String.data_append] at hd
      simp only [List.append_eq_nil] at hd
      simp at hd

theorem renderParts_ok_ne :
    ∀ (ns : FNodes) (parts : List String),
      renderParts ns = .ok parts → ∀ p ∈ parts, p ≠ "" := by
  intro ns
  induction ns using fnodes_induction with
  | nil =>
      intro parts h p hp
      simp [renderParts] at h
      subst h
      simp at hp
  | condCase c rest ih =>
      intro parts h p hp
      unfold renderParts at h
      cases hc : renderCondition c with
      | error e => rw [hc] at h; simp at h
      | ok r =>
          rw [hc] at h
          cases ht : renderParts rest with
          | error e => rw [ht] at h; simp at h
          | ok tail =>
              rw [ht] at h
              simp only [Except.ok.injEq] at h
              subst h
              rcases List.mem_cons.mp hp with rfl | hmem
              · exact renderCondition_ok_ne c p hc
              · exact ih tail ht p hmem
  | groupCase l cs rest ihcs ihrest =>
      intro parts h p hp
      unfold renderParts at h
      cases hc : renderParts cs with
      | error e => rw [hc] at h; simp at h
      | ok nparts =>
          rw [hc] at h
          cases ht : renderParts rest with
          | error e => rw [ht] at h; simp at h
          | ok tail =>
              rw [ht] at h
              simp only [Except.ok.injEq] at h
              by_cases hn : groupJoin l nparts = ""
              · rw [if_pos hn] at h
                subst h
                exact ihrest tail ht p hp
              · rw [if_neg hn] at h
                subst h
                rcases List.mem_cons.mp hp with rfl | hmem
                · intro he
                  have hd := congrArg String.data he
                  rw [String.data_append, String.data_append] at hd
                  simp only [List.append_eq_nil] at hd
                  simp at hd
                · exact ihrest tail ht p hmem

theorem allEmpty_renders_nil :
    ∀ ns : FNodes, allEmptyL ns = true → renderParts ns = .ok [] := by
  intro ns
  induction ns using fnodes_induction with
  | nil => intro _; rfl
  | condCase c rest ih =>
      intro h
      simp [allEmptyL, allEmptyN] at h
  | groupCase l cs rest ihcs ihrest =>
      intro h
      simp only [allEmptyL, allEmptyN, Bool.and_eq_true] at h
      unfold renderParts
      rw [ihcs h.1, ihrest h.2]
      simp [groupJoin]

/-- The nested group of end-to-end scenario C of the spec. -/
def scenarioCGroup : FilterGroup :=
  ⟨"or", .cons (.cond ⟨"Status", .eq, .int 1, "number"⟩)
    (.cons (.group "and" (.cons (.cond ⟨"Price", .gt, .int 100, "number"⟩)
      (.cons (.cond ⟨"Active", .eq, .bool true, "boolean"⟩) .nil))) .nil)⟩

/-- C3: a non-empty FilterGroup with exactly one condition renders to that
condition's expression with no added parentheses; with two or more
rendered members every member appears parenthesized and the members are
joined in order by the group logic keyword; scenario C renders as the
spec states. -/
theorem filter_group_rendering :
    (∀ (logic : String) (c : FilterCondition) (r : String),
        renderCondition c = .ok r →
        buildGroup ⟨logic, .cons (.cond c) .nil⟩ = .ok r)
    ∧ (∀ (g : FilterGroup) (parts : List String),
        renderParts g.conditions = .ok parts → 2 ≤ parts.length →
        buildGroup g = .ok (pyJoin (" " ++ g.logic ++ " ") (parts.map pyWrap))
          ∧ ∀ p ∈ parts, pyStartsWith (pyWrap p) "(" = true ∧ pyEndsWith (pyWrap p) ")" = true)
    ∧ filterBuild (some scenarioCGroup)
        = .ok "(Status eq 1) or ((Price gt 100) and (Active eq true))" := by
  refine ⟨?_, ?_, ?_⟩
  · intro logic c r h
    unfold buildGroup
    show (match renderParts (.cons (.cond c) .nil) with
          | Except.ok parts => Except.ok (groupJoin logic parts)
          | Except.error e => (Except.error e : Except String String)) = .ok r
    unfold renderParts
    rw [h]
    rfl
  · intro g parts h hlen
    constructor
    · unfold buildGroup
      rw [h]
      match parts, hlen with
      | p₁ :: p₂ :: ps, _ => rfl
    · intro p _
      exact pyWrap_paren p
  · rfl

/-- Witness for filter_group_rendering at a concrete one-condition group
(scenario A of the spec). -/
theorem filter_group_rendering_witness :
    renderCondition ⟨"Name", .eq, .str "Test", "string"⟩ = .ok "Name eq 'Test'"
    ∧ buildGroup ⟨"and", .cons (.cond ⟨"Name", .eq, .str "Test", "string"⟩) .nil⟩
        = .ok "Name eq 'Test'" :=
  ⟨rfl, filter_group_rendering.1 "and" _ _ rfl⟩

/-- C10: a nested-group member rendering to the empty string is omitted
from the parent parts; a group all of whose members are empty groups (at
any depth) renders to the empty string; every part that enters the
wrapped join is a non-empty string, so no rendered filter gains empty
parentheses or a logic keyword with a missing operand. -/
theorem empty_groups_render_empty :
    (∀ (l2 : String) (cs rest : FNodes),
        buildGroup ⟨l2, cs⟩ = .ok "" →
        renderParts (.cons (.group l2 cs) rest) = renderParts rest)
    ∧ (∀ g : FilterGroup, allEmptyL g.conditions = true → filterBuild (some g) = .ok "")
    ∧ (∀ (ns : FNodes) (parts : List String),
        renderParts ns = .ok parts → ∀ p ∈ parts, p ≠ "") := by
  refine ⟨?_, ?_, renderParts_ok_ne⟩
  · intro l2 cs rest h
    unfold buildGroup at h
    cases hc : renderParts cs with
    | error e => rw [hc] at h; simp at h
    | ok nparts =>
        rw [hc] at h
        simp only [Except.ok.injEq] at h
        have key : renderParts (.cons (.group l2 cs) rest)
            = match renderParts rest with
              | Except.error e => (Except.error e : Except String (List String))
              | Except.ok tail => Except.ok tail := by
          unfold renderParts
          rw [hc]
          simp only [h]
          conv_rhs => rw [← renderParts.eq_def]
          cases hrp : renderParts rest <;> simp
        rw [key]
        cases hrp : renderParts rest <;> rfl
  · intro g hall
    obtain ⟨gl, gc⟩ := g
    cases gc with
    | nil => rfl
    | cons hd tl =>
        show buildGroup ⟨gl, .cons hd tl⟩ = .ok ""
        unfold buildGroup
        rw [allEmpty_renders_nil _ hall]
        rfl

/-- Witness for empty_groups_render_empty: a group whose two members are
empty groups renders to the empty string, and the empty nested group is
omitted from the parent parts. -/
theorem empty_groups_render_empty_witness :
    filterBuild (some ⟨"or", .cons (.group "and" .nil) (.cons (.group "or" .nil) .nil)⟩)
        = .ok ""
    ∧ renderParts (.cons (.group "and" .nil) .nil) = renderParts .nil :=
  ⟨empty_groups_render_empty.2.1 ⟨"or",
      .cons (.group "and" .nil) (.cons (.group "or" .nil) .nil)⟩ rfl,
    empty_groups_render_empty.1 "and" .nil .nil rfl⟩

/-- C4 (code bug): the textual form YYYY-MM-DDTHH:MM parses, but the
add_time flag of its pattern entry zeroes the parsed time, so the
rendered value is midnight instead of keeping HH:MM with seconds
defaulted to 00; moreover an unparseable value containing a capital T
(here XTY) is passed through with padded time pieces instead of raising
the formatting error.  The remaining conjuncts show the behavior the
claim correctly describes: a missing time defaults to midnight, the
dotted form keeps its time, and a T-less unparseable value raises an
error naming the offending value. -/
theorem datetime_normalization_divergence :
    normalizeDatetime (.str "2024-01-15T10:30") = .ok "2024-01-15T00:00:00"
    ∧ formatValue (.str "2024-01-15T10:30") "datetime" = .ok "datetime'2024-01-15T00:00:00'"
    ∧ normalizeDatetime (.str "XTY") = .ok "XTY:00:00"
    ∧ normalizeDatetime (.str "2024-01-15") = .ok "2024-01-15T00:00:00"
    ∧ normalizeDatetime (.str "2024-01-15T10:30:45") = .ok "2024-01-15T10:30:45"
    ∧ normalizeDatetime (.str "15.01.2024 10:20:30") = .ok "2024-01-15T10:20:30"
    ∧ normalizeDatetime (.str "15.01.2024 10:20") = .ok "2024-01-15T10:20:00"
    ∧ normalizeDatetime (.pydate 2024 1 15) = .ok "2024-01-15T00:00:00"
    ∧ normalizeDatetime (.pydatetime 2024 1 15 10 20 30 999) = .ok "2024-01-15T10:20:30"
    ∧ normalizeDatetime (.str "garbage") = .error "Unrecognized datetime format: garbage" :=
  ⟨rfl, rfl, rfl, rfl, rfl, rfl, rfl, rfl, rfl, rfl⟩

/-! ## models.QueryPlan and plan_validator.PlanValidator -/

/-- Model of models.QueryPlan (orderby directions kept as strings). -/
structure QueryPlan where
  entity : String
  filter_group : Option FilterGroup
  select : List String
  orderby : List (String × String)
  top : Option Int
  expand : List String

/-- One metadata record as the validator consumes it (type, name and the
field list; the other keys are unused there). -/
structure MetaItem where
  type : String
  name : String
  fields : List String

/-- The f-string type_name entity identifier the validator builds. -/
def entityIdOf (it : MetaItem) : String := it.type ++ "_" ++ it.name

/-- The entity identifier set of PlanValidator.__init__ (membership is
what the source uses it for). -/
def validatorEntities (md : List MetaItem) : List String := md.map entityIdOf

/-- The per-entity field index of _build_fields_index; a later record
with the same identifier overwrites an earlier one, as dict assignment
does. -/
def fieldsIndexLookup (md : List MetaItem) (e : String) : Option (List String) :=
  md.foldl (fun acc it => if entityIdOf it = e then some it.fields else acc) Option.none

/-- The valid_fields value of validate and suggest_fixes
(dict.get(entity, empty set)). -/
def validFieldsOf (md : List MetaItem) (e : String) : List String :=
  (fieldsIndexLookup md e).getD []

/-- Model of PlanValidator._check_fields: recursively collects unknown
filter condition fields; an empty field set disables the check. -/
def checkFields : FNodes → List String → List String
  | .nil, _ => []
  | .cons (.group _ cs) rest, vf => checkFields cs vf ++ checkFields rest vf
  | .cons (.cond c) rest, vf =>
      (if vf ≠ [] ∧ c.field ∉ vf then ["Unknown field in filter: " ++ c.field] else [])
        ++ checkFields rest vf

/-- Model of PlanValidator.validate. -/
def validate (md : List MetaItem) (plan : QueryPlan) : List String :=
  (if plan.entity ∈ validatorEntities md then [] else ["Unknown entity: " ++ plan.entity])
  ++ (match plan.filter_group with
      | some g => checkFields g.conditions (validFieldsOf md plan.entity)
      | Option.none => [])
  ++ (plan.select.filterMap fun f =>
      if validFieldsOf md plan.entity ≠ [] ∧ f ∉ validFieldsOf md plan.entity then
        some ("Unknown field in select: " ++ f)
      else Option.none)
  ++ (plan.orderby.filterMap fun fd =>
      if validFieldsOf md plan.entity ≠ [] ∧ fd.1 ∉ validFieldsOf md plan.entity then
        some ("Unknown field in orderby: " ++ fd.1)
      else Option.none)

theorem checkFields_empty_valid : ∀ ns : FNodes, checkFields ns [] = [] := by
  intro ns
  induction ns using fnodes_induction with
  | nil => rfl
  | condCase c rest ih => simp [checkFields, ih]
  | groupCase l cs rest ihcs ihrest => simp [checkFields, ihcs, ihrest]

/-- C7: when the target entity has no known field set (absent entity or
empty field list), validate reports no field error at all: the result is
exactly the unknown-entity error when the entity is unknown, and empty
otherwise. -/
theorem validate_no_metadata_no_field_errors (md : List MetaItem) (plan : QueryPlan)
    (h : validFieldsOf md plan.entity = []) :
    validate md plan =
      if plan.entity ∈ validatorEntities md then [] else ["Unknown entity: " ++ plan.entity] := by
  unfold validate
  rw [h]
  have hfg : (match plan.filter_group with
      | some g => checkFields g.conditions ([] : List String)
      | Option.none => []) = [] := by
    cases plan.filter_group with
    | none => rfl
    | some g => exact checkFields_empty_valid g.conditions
  rw [hfg]
  simp

/-- Witness for validate_no_metadata_no_field_errors: a plan over an
entity absent from the metadata yields exactly the unknown-entity error,
despite carrying filter, select and orderby fields. -/
theorem validate_no_metadata_witness :
    validate []
      ⟨"Catalog_X", some ⟨"and", .cons (.cond ⟨"F", .eq, .str "v", "string"⟩) .nil⟩,
        ["S"], [("O", "asc")], Option.none, []⟩
      = ["Unknown entity: Catalog_X"] := by
  rw [validate_no_metadata_no_field_errors [] _ rfl]
  rfl

/-! ## plan_validator.PlanValidator.suggest_fixes -/

/-- Model of thefuzz process.extractOne over an abstract scorer: the
first choice attaining the maximal score (Python max keeps the first
maximum), none only when choices is empty. -/
def extractOne (scorer : String → String → Nat) (query : String)
    (choices : List String) : Option String :=
  match choices with
  | [] => Option.none
  | c :: rest =>
      some (rest.foldl (fun best c2 =>
        if scorer query c2 > best.2 then (c2, scorer query c2) else best)
        (c, scorer query c)).1

/-- The _fix_field closure: best fuzzy match, or the name itself when
there are no choices. -/
def fixFieldFn (scorer : String → String → Nat) (choices : List String)
    (name : String) : String :=
  match extractOne scorer name choices with
  | some best => best
  | Option.none => name

/-- Model of PlanValidator._fix_group: rewrites every leaf condition
field through the fixer, recursively, keeping everything else. -/
def fixNodes (fix : String → String) : FNodes → FNodes
  | .nil => .nil
  | .cons (.cond c) rest => .cons (.cond { c with field := fix c.field }) (fixNodes fix rest)
  | .cons (.group l cs) rest => .cons (.group l (fixNodes fix cs)) (fixNodes fix rest)

/-- Model of PlanValidator.suggest_fixes.  The scorer models fuzz.WRatio
and choices models list(valid_fields), whose order Python set iteration
leaves unspecified; both are passed explicitly. -/
def suggest_fixes (md : List MetaItem) (scorer : String → String → Nat)
    (choices : List String) (plan : QueryPlan) (errors : List String) : QueryPlan :=
  if errors.isEmpty then plan
  else
    let vf := validFieldsOf md plan.entity
    if vf.isEmpty then plan
    else
      let fix := fixFieldFn scorer choices
      { plan with
        filter_group := plan.filter_group.map (fun g => ⟨g.logic, fixNodes fix g.conditions⟩),
        select := plan.select.map (fun f => if f ∈ vf then f else fix f),
        orderby := plan.orderby.map (fun fd => (if fd.1 ∈ vf then fd.1 else fix fd.1, fd.2)) }

/-- Leaf condition fields of a node sequence, in rendering order. -/
def condFieldsOf : FNodes → List String
  | .nil => []
  | .cons (.cond c) rest => c.field :: condFieldsOf rest
  | .cons (.group _ cs) rest => condFieldsOf cs ++ condFieldsOf rest

/-- Leaf operator, value and value_type triples, in rendering order. -/
def condMetaOf : FNodes → List (FilterOperator × FValue × String)
  | .nil => []
  | .cons (.cond c) rest => (c.operator, c.value, c.value_type) :: condMetaOf rest
  | .cons (.group _ cs) rest => condMetaOf cs ++ condMetaOf rest

/-- Group logic keywords of all nested groups, in order. -/
def logicsOf : FNodes → List String
  | .nil => []
  | .cons (.cond _) rest => logicsOf rest
  | .cons (.group l cs) rest => l :: (logicsOf cs ++ logicsOf rest)

theorem fixNodes_meta (fix : String → String) :
    ∀ ns, condMetaOf (fixNodes fix ns) = condMetaOf ns := by
  intro ns
  induction ns using fnodes_induction with
  | nil => rfl
  | condCase c rest ih => simp [fixNodes, condMetaOf, ih]
  | groupCase l cs rest ihcs ihrest => simp [fixNodes, condMetaOf, ihcs, ihrest]

theorem fixNodes_logics (fix : String → String) :
    ∀ ns, logicsOf (fixNodes fix ns) = logicsOf ns := by
  intro ns
  induction ns using fnodes_induction with
  | nil => rfl
  | condCase c rest ih => simp [fixNodes, logicsOf, ih]
  | groupCase l cs rest ihcs ihrest => simp [fixNodes, logicsOf, ihcs, ihrest]

theorem fixNodes_fields (fix : String → String) :
    ∀ ns, condFieldsOf (fixNodes fix ns) = (condFieldsOf ns).map fix := by
  intro ns
  induction ns using fnodes_induction with
  | nil => rfl
  | condCase c rest ih => simp [fixNodes, condFieldsOf, ih]
  | groupCase l cs rest ihcs ihrest => simp [fixNodes, condFieldsOf, ihcs, ihrest]

/-- Facts true of fuzz.WRatio that the analysis relies on: a string
scores 100 against itself, scores are at most 100, and two strings equal
up to case score 100 (WRatio lowercases via its default processor). -/
def WRatioLike (scorer : String → String → Nat) : Prop :=
  (∀ x, scorer x x = 100) ∧ (∀ x y, scorer x y ≤ 100)
  ∧ (∀ x y, pyLower x = pyLower y → scorer x y = 100)

/-- A scorer agreeing with fuzz.WRatio on case-insensitively equal
strings and scoring everything else 0 (a sound WRatioLike witness). -/
def caseFoldScorer : String → String → Nat :=
  fun x y => if pyLower x = pyLower y then 100 else 0

theorem caseFoldScorer_wratioLike : WRatioLike caseFoldScorer := by
  refine ⟨fun x => ?_, fun x y => ?_, fun x y h => ?_⟩
  · simp [caseFoldScorer]
  · unfold caseFoldScorer
    split <;> omega
  · simp [caseFoldScorer, h]

/-- Metadata with two field names equal up to case. -/
def mdCase : List MetaItem := [⟨"Catalog", "Items", ["NAME", "Name"]⟩]

/-- A plan whose filter references the valid field Name and whose select
references an unknown field, so validation reports an error and repair
runs. -/
def planCase : QueryPlan :=
  ⟨"Catalog_Items",
   some ⟨"and", .cons (.cond ⟨"Name", .eq, .str "x", "string"⟩) .nil⟩,
   ["Bogus"], [], Option.none, []⟩

/-- C2 counterexample: with metadata fields NAME and Name, a WRatio-like
scorer and the choices order NAME, Name (one of the unspecified Python
set orders), suggest_fixes rewrites the already-valid filter field Name
into NAME, so the claim as stated fails on the code. -/
theorem suggest_fixes_changes_valid_filter_field :
    WRatioLike caseFoldScorer
    ∧ (∀ x, x ∈ ["NAME", "Name"] ↔ x ∈ validFieldsOf mdCase planCase.entity)
    ∧ "Name" ∈ validFieldsOf mdCase planCase.entity
    ∧ validate mdCase planCase = ["Unknown field in select: Bogus"]
    ∧ (suggest_fixes mdCase caseFoldScorer ["NAME", "Name"] planCase
        (validate mdCase planCase)).filter_group
      = some ⟨"and", .cons (.cond ⟨"NAME", .eq, .str "x", "string"⟩) .nil⟩ := by
  refine ⟨caseFoldScorer_wratioLike, ?_, ?_, ?_, ?_⟩
  · intro x
    rw [show validFieldsOf mdCase planCase.entity = ["NAME", "Name"] from rfl]
  · decide
  · decide
  · rfl

/-- C2 (amended): suggest_fixes never alters entity, top or expand, never
alters any condition operator, value, value_type or any group logic,
preserves already-valid select and orderby field names (and orderby
directions), returns the plan unchanged when there are no errors or no
known fields, and otherwise rewrites every filter condition field (the
already-valid ones included) through the fuzzy best match. -/
theorem suggest_fixes_frame (md : List MetaItem) (scorer : String → String → Nat)
    (choices : List String) (plan : QueryPlan) (errors : List String) :
    (suggest_fixes md scorer choices plan errors).entity = plan.entity
    ∧ (suggest_fixes md scorer choices plan errors).top = plan.top
    ∧ (suggest_fixes md scorer choices plan errors).expand = plan.expand
    ∧ List.Forall₂ (fun a b => a ∈ validFieldsOf md plan.entity → b = a)
        plan.select (suggest_fixes md scorer choices plan errors).select
    ∧ List.Forall₂ (fun (a b : String × String) =>
          b.2 = a.2 ∧ (a.1 ∈ validFieldsOf md plan.entity → b.1 = a.1))
        plan.orderby (suggest_fixes md scorer choices plan errors).orderby
    ∧ (suggest_fixes md scorer choices plan errors).filter_group.map
          (fun g => (g.logic, condMetaOf g.conditions, logicsOf g.conditions))
        = plan.filter_group.map (fun g => (g.logic, condMetaOf g.conditions, logicsOf g.conditions))
    ∧ (errors = [] ∨ validFieldsOf md plan.entity = [] →
        suggest_fixes md scorer choices plan errors = plan)
    ∧ (errors ≠ [] → validFieldsOf md plan.entity ≠ [] →
        (suggest_fixes md scorer choices plan errors).filter_group.map
            (fun g => condFieldsOf g.conditions)
          = plan.filter_group.map (fun g =>
              (condFieldsOf g.conditions).map (fixFieldFn scorer choices))) := by
  by_cases he : errors.isEmpty
  · have hp : suggest_fixes md scorer choices plan errors = plan := by
      unfold suggest_fixes
      rw [if_pos he]
    refine ⟨by rw [hp], by rw [hp], by rw [hp], ?_, ?_, by rw [hp], fun _ => hp, ?_⟩
    · rw [hp]
      exact List.forall₂_same.mpr (fun a _ _ => rfl)
    · rw [hp]
      exact List.forall₂_same.mpr (fun a _ => ⟨rfl, fun _ => rfl⟩)
    · intro hne _
      exact absurd (List.isEmpty_iff.mp he) hne
  · by_cases hv : (validFieldsOf md plan.entity).isEmpty
    · have hp : suggest_fixes md scorer choices plan errors = plan := by
        unfold suggest_fixes
        rw [if_neg he, if_pos hv]
      refine ⟨by rw [hp], by rw [hp], by rw [hp], ?_, ?_, by rw [hp], fun _ => hp, ?_⟩
      · rw [hp]
        exact List.forall₂_same.mpr (fun a _ _ => rfl)
      · rw [hp]
        exact List.forall₂_same.mpr (fun a _ => ⟨rfl, fun _ => rfl⟩)
      · intro _ hne
        exact absurd (List.isEmpty_iff.mp hv) hne
    · have hp : suggest_fixes md scorer choices plan errors =
          { plan with
            filter_group := plan.filter_group.map
              (fun g => ⟨g.logic, fixNodes (fixFieldFn scorer choices) g.conditions⟩),
            select := plan.select.map
              (fun f => if f ∈ validFieldsOf md plan.entity then f
                        else fixFieldFn scorer choices f),
            orderby := plan.orderby.map
              (fun fd => (if fd.1 ∈ validFieldsOf md plan.entity then fd.1
                          else fixFieldFn scorer choices fd.1, fd.2)) } := by
        unfold suggest_fixes
        rw [if_neg he, if_neg hv]
      refine ⟨by rw [hp], by rw [hp], by rw [hp], ?_, ?_, ?_, ?_, ?_⟩
      · rw [hp]
        refine List.forall₂_map_right_iff.mpr (List.forall₂_same.mpr ?_)
        intro a _ ha
        simp [ha]
      · rw [hp]
        refine List.forall₂_map_right_iff.mpr (List.forall₂_same.mpr ?_)
        intro a _
        refine ⟨rfl, fun ha => ?_⟩
        simp [ha]
      · rw [hp]
        cases plan.filter_group with
        | none => rfl
        | some g =>
            simp [fixNodes_meta, fixNodes_logics]
      · intro hor
        rcases hor with h1 | h1
        · exact absurd (by rw [h1]; rfl) he
        · exact absurd (by rw [h1]; rfl) hv
      · intro _ _
        rw [hp]
        cases plan.filter_group with
        | none => rfl
        | some g =>
            simp [fixNodes_fields]

/-- Witness for suggest_fixes_frame on a concrete repair run: the entity
is preserved and valid select fields survive. -/
theorem suggest_fixes_frame_witness :
    (suggest_fixes mdCase caseFoldScorer ["NAME", "Name"] planCase
        (validate mdCase planCase)).entity = planCase.entity
    ∧ (validate mdCase planCase = [] ∨ validFieldsOf mdCase planCase.entity = [] →
        suggest_fixes mdCase caseFoldScorer ["NAME", "Name"] planCase
          (validate mdCase planCase) = planCase) :=
  ⟨(suggest_fixes_frame mdCase caseFoldScorer ["NAME", "Name"] planCase
      (validate mdCase planCase)).1,
   (suggest_fixes_frame mdCase caseFoldScorer ["NAME", "Name"] planCase
      (validate mdCase planCase)).2.2.2.2.2.2.1⟩

/-! ## url_builder.ODataUrlBuilder -/

/-- UTF-8 bytes of a character (urllib quote encodes non-safe characters
byte by byte). -/
def utf8Bytes (c : Char) : List Nat :=
  let n := c.toNat
  if n < 0x80 then [n]
  else if n < 0x800 then [0xC0 + n / 64, 0x80 + n % 64]
  else if n < 0x10000 then [0xE0 + n / 4096, 0x80 + n / 64 % 64, 0x80 + n % 64]
  else [0xF0 + n / 262144, 0x80 + n / 4096 % 64, 0x80 + n / 64 % 64, 0x80 + n % 64]

/-- Uppercase hexadecimal digit. -/
def hexDigit (n : Nat) : Char :=
  if n < 10 then Char.ofNat (48 + n) else Char.ofNat (55 + n)

/-- Percent-encoding of one byte. -/
def percentByte (b : Nat) : List Char := ['%', hexDigit (b / 16), hexDigit (b % 16)]

/-- The characters urllib quote never encodes. -/
def alwaysSafe (c : Char) : Bool :=
  ('A' ≤ c && c ≤ 'Z') || ('a' ≤ c && c ≤ 'z') || ('0' ≤ c && c ≤ '9')
    || c = '_' || c = '.' || c = '-' || c = '~'

/-- Model of urllib.parse.quote with an explicit safe set. -/
def pyQuote (s : String) (safe : String) : String :=
  ⟨s.data.flatMap (fun c =>
    if alwaysSafe c || safe.data.contains c then [c]
    else (utf8Bytes c).flatMap percentByte)⟩

/-- Model of str.rstrip with a single character argument. -/
def pyRstrip (s : String) (c : Char) : String := ⟨dropRightWhileL (· == c) s.data⟩

/-- The extended filter safe set of the URL builder. -/
def SAFE_CHARS : String := "$'(),=<>:+-"

/-- Model of ODataUrlBuilder._encode_filter. -/
def encodeFilter (s : String) : String := pyQuote s SAFE_CHARS

/-- True for values carried as Python str. -/
def isStrV : FValue → Bool
  | .str _ => true
  | _ => false

/-- The query-part loop of ODataUrlBuilder.build: drops None and empty
string values, percent-encodes the filter with the extended safe set and
everything else with the narrow one. -/
def buildQueryParts (params : List (String × FValue)) : List String :=
  params.filterMap fun kv =>
    if kv.2 = FValue.none ∨ kv.2 = FValue.str "" then Option.none
    else
      let encoded_value :=
        if kv.1 = "$filter" ∧ isStrV kv.2 then encodeFilter (pyStr kv.2)
        else pyQuote (pyStr kv.2) "$,:'"
      some (pyQuote kv.1 "$" ++ "=" ++ encoded_value)

/-- Model of ODataUrlBuilder.build. -/
def urlBuild (base_url entity : String) (params : List (String × FValue)) :
    Except String String :=
  if base_url = "" then .error "OData base URL is not configured"
  else if entity = "" then .error "OData entity is not specified"
  else
    let normalized_params :=
      if params.any (fun kv => kv.1 = "$format") then params
      else params ++ [("$format", FValue.str "json")]
    let base := pyRstrip base_url '/'
    let lower := pyLower base
    let normalized_base :=
      if pyEndsWith lower "/odata/standard.odata" then base
      else if pyEndsWith lower "/odata" then base ++ "/standard.odata"
      else base ++ "/odata/standard.odata"
    let root := normalized_base ++ "/" ++ pyQuote (normalize_entity_name entity) "$()_-~."
    let query_parts := buildQueryParts normalized_params
    if query_parts = [] then .ok root
    else .ok (root ++ "?" ++ pyJoin "&" query_parts)

theorem strAppend_assoc (a b c : String) : a ++ b ++ c = a ++ (b ++ c) := by
  apply String.ext
  simp [String.data_append, List.append_assoc]

theorem pyJoin_append_last (sep : String) (x : String) :
    ∀ qs : List String,
      pyJoin sep (qs ++ [x]) = if qs = [] then x else pyJoin sep qs ++ sep ++ x := by
  intro qs
  induction qs with
  | nil => rfl
  | cons q qs ih =>
      cases qs with
      | nil => rfl
      | cons q2 qs2 =>
          show q ++ sep ++ pyJoin sep ((q2 :: qs2) ++ [x])
              = if q :: q2 :: qs2 = [] then x else pyJoin sep (q :: q2 :: qs2) ++ sep ++ x
          rw [ih, if_neg (by simp), if_neg (by simp)]
          have hq : pyJoin sep (q :: q2 :: qs2) = q ++ sep ++ pyJoin sep (q2 :: qs2) := rfl
          rw [hq]
          apply String.ext
          simp [String.data_append, List.append_assoc]

theorem pyEndsWith_append (a suffix : String) : pyEndsWith (a ++ suffix) suffix = true := by
  unfold pyEndsWith
  rw [List.isSuffixOf_iff_suffix, String.data_append]
  exact List.suffix_append _ _

theorem exists_format_suffix (R : String) (qs : List String) :
    ∃ url r, (Except.ok (R ++ "?" ++ pyJoin "&" (qs ++ ["$format=json"])) : Except String String)
        = .ok url
      ∧ url = r ++ "$format=json"
      ∧ (pyEndsWith r "?" = true ∨ pyEndsWith r "&" = true) := by
  rw [pyJoin_append_last]
  cases qs with
  | nil =>
      rw [if_pos rfl]
      refine ⟨_, R ++ "?", rfl, by rw [strAppend_assoc], Or.inl (pyEndsWith_append R "?")⟩
  | cons q qs2 =>
      rw [if_neg (by simp)]
      refine ⟨_, R ++ "?" ++ pyJoin "&" (q :: qs2) ++ "&", rfl, ?_,
        Or.inr (pyEndsWith_append _ "&")⟩
      apply String.ext
      simp [String.data_append, List.append_assoc]

/-- C6: for every non-empty base URL and entity, if the parameter map
carries no $format key, the built URL ends with a $format=json query
parameter (preceded by ? or by &). -/
theorem url_build_always_format (base_url entity : String) (params : List (String × FValue))
    (hb : base_url ≠ "") (he : entity ≠ "")
    (hf : "$format" ∉ params.map Prod.fst) :
    ∃ url r, urlBuild base_url entity params = .ok url
      ∧ url = r ++ "$format=json"
      ∧ (pyEndsWith r "?" = true ∨ pyEndsWith r "&" = true) := by
  have hany : params.any (fun kv => kv.1 = "$format") = false := by
    rw [List.any_eq_false]
    intro kv hkv
    simp only [decide_eq_true_eq]
    intro heq
    exact hf (List.mem_map.mpr ⟨kv, hkv, heq⟩)
  have hsplit : buildQueryParts (params ++ [("$format", FValue.str "json")])
      = buildQueryParts params ++ ["$format=json"] := by
    unfold buildQueryParts
    rw [List.filterMap_append]
    congr 1
  have hne : buildQueryParts params ++ ["$format=json"] ≠ [] := by simp
  unfold urlBuild
  rw [if_neg hb, if_neg he]
  simp only [hany, Bool.false_eq_true, if_false, hsplit, if_neg hne]
  exact exists_format_suffix _ _

/-- Witness for url_build_always_format, at the inputs of end-to-end
scenario D of the spec. -/
theorem url_build_always_format_witness :
    ∃ url r, urlBuild "https://example/odata" "Document_Sale" [("$top", FValue.int 1)]
        = .ok url
      ∧ url = r ++ "$format=json"
      ∧ (pyEndsWith r "?" = true ∨ pyEndsWith r "&" = true) :=
  url_build_always_format "https://example/odata" "Document_Sale" [("$top", FValue.int 1)]
    (by decide) (by decide) (by decide)

/-! ## query_tool normalize_params and _normalize_filter_dates -/

/-- Exactly n decimal digits. -/
def parseDigitsN : Nat → List Char → Option (List Char × List Char)
  | 0, l => some ([], l)
  | n + 1, c :: rest =>
      if c.isDigit then (parseDigitsN n rest).map (fun dr => (c :: dr.1, dr.2))
      else Option.none
  | _ + 1, [] => Option.none

/-- The date core of the _DATE_RE pattern: four digits, dash, two digits,
dash, two digits. -/
def matchDateCore (l : List Char) : Option (List Char × List Char) := do
  let (d1, l) ← parseDigitsN 4 l
  let l ← (match l with | '-' :: r => some r | _ => Option.none)
  let (d2, l) ← parseDigitsN 2 l
  let l ← (match l with | '-' :: r => some r | _ => Option.none)
  let (d3, l) ← parseDigitsN 2 l
  pure (d1 ++ '-' :: d2 ++ '-' :: d3, l)

/-- The optional time group of _DATE_RE: T or t then HH:MM:SS. -/
def matchTimeCore (l : List Char) : Option (List Char × List Char) :=
  match l with
  | tc :: rest =>
      if tc = 'T' ∨ tc = 't' then
        (do
          let (h, l) ← parseDigitsN 2 rest
          let l ← (match l with | ':' :: r => some r | _ => Option.none)
          let (mi, l) ← parseDigitsN 2 l
          let l ← (match l with | ':' :: r => some r | _ => Option.none)
          let (s, l) ← parseDigitsN 2 l
          pure (tc :: h ++ ':' :: mi ++ ':' :: s, l))
      else Option.none
  | [] => Option.none

/-- One match attempt of _DATE_RE at a position: a quoted date literal
with optional time, returning the captured group and the remainder.  The
optional group backtracks to absent when the closing quote does not
follow it, as the regex engine does. -/
def matchDateLit (l : List Char) : Option (List Char × List Char) :=
  match l with
  | '\'' :: rest =>
      match matchDateCore rest with
      | Option.none => Option.none
      | some (d, rest2) =>
          match matchTimeCore rest2 with
          | some (t, rest3) =>
              match rest3 with
              | '\'' :: rem => some (d ++ t, rem)
              | _ =>
                  match rest2 with
                  | '\'' :: rem => some (d, rem)
                  | _ => Option.none
          | Option.none =>
              match rest2 with
              | '\'' :: rem => some (d, rem)
              | _ => Option.none
  | _ => Option.none

/-- The _repl callback of _normalize_filter_dates: normalize t to T,
split date and time at the first T (defaulting the time to midnight),
pad the time pieces with 00 to three, and wrap in datetime quotes. -/
def replDateLit (raw : List Char) : List Char :=
  let raw2 := raw.map (fun c => if c = 't' then 'T' else c)
  let dt :=
    match splitFirst 'T' raw2 with
    | some p => p
    | Option.none => (raw2, "00:00:00".data)
  let bits := splitAll ':' dt.2
  let padded := (bits ++ List.replicate (3 - bits.length) "00".data).take 3
  "datetime'".data ++ dt.1 ++ 'T' :: List.intercalate [':'] padded ++ ['\'']

/-- The two negative lookbehinds of _DATE_RE: the quote must not be
preceded by the word datetime nor by another quote. -/
def lookbehindOK (consumedRev : List Char) : Bool :=
  ¬ ("datetime".data.reverse.isPrefixOf consumedRev) && consumedRev.head? ≠ some '\''

/-- Left-to-right scan of re.sub with the _DATE_RE pattern; consumedRev
holds the original characters already passed, newest first, for the
lookbehinds.  Fuel is the remaining length, so it never runs out. -/
def scanFilterDatesF : Nat → List Char → List Char → List Char
  | 0, _, rest => rest
  | fuel + 1, consumedRev, rest =>
      match rest with
      | [] => []
      | c :: rs =>
          if c = '\'' ∧ lookbehindOK consumedRev then
            match matchDateLit (c :: rs) with
            | some (raw, rem) =>
                replDateLit raw
                  ++ scanFilterDatesF fuel ((('\'' :: raw) ++ ['\'']).reverse ++ consumedRev) rem
            | Option.none => c :: scanFilterDatesF fuel (c :: consumedRev) rs
          else c :: scanFilterDatesF fuel (c :: consumedRev) rs

/-- Substring containment test (the Python in operator on str). -/
def containsSub (sub : List Char) : List Char → Bool
  | [] => sub.isEmpty
  | c :: rest => sub.isPrefixOf (c :: rest) || containsSub sub rest

/-- Model of query_tool._normalize_filter_dates. -/
def normalizeFilterDates (s : String) : String :=
  if containsSub ("datetime'".data) (pyLower s).data then s
  else ⟨scanFilterDatesF s.data.length [] s.data⟩

/-- The recognized bare keyword keys of normalize_params. -/
def KEYWORD_KEYS : List String := ["filter", "select", "top", "orderby", "format", "expand"]

/-- Model of str.lstrip with a single character argument. -/
def pyLstripChar (c : Char) (s : String) : String := ⟨s.data.dropWhile (· == c)⟩

/-- The key handling of one normalize_params iteration: strip, drop empty
keys, and add the dollar prefix to bare recognized keywords. -/
def processKey (k : String) : Option String :=
  let k2 := pyStrip k
  if k2 = "" then Option.none
  else
    let bare := pyLower (pyLstripChar '$' k2)
    if ¬ pyStartsWith k2 "$" ∧ bare ∈ KEYWORD_KEYS then some ("$" ++ bare) else some k2

/-- Insertion-ordered dict assignment: replace in place or append. -/
def dictSet (d : List (String × FValue)) (k : String) (v : FValue) :
    List (String × FValue) :=
  if d.any (fun kv => kv.1 = k) then d.map (fun kv => if kv.1 = k then (k, v) else kv)
  else d ++ [(k, v)]

/-- One iteration of the normalize_params loop. -/
def normalizeStep (acc : List (String × FValue)) (kv : String × FValue) :
    List (String × FValue) :=
  if kv.2 = FValue.none ∨ kv.2 = FValue.str "" then acc
  else
    match processKey kv.1 with
    | Option.none => acc
    | some key =>
        let v1 := if key = "$format" ∧ ¬ pyTruthy kv.2 then FValue.str "json" else kv.2
        let v2 :=
          if key = "$filter" then
            match v1 with
            | .str s => FValue.str (normalizeFilterDates s)
            | v => v
          else v1
        dictSet acc key v2

/-- Model of query_tool.normalize_params. -/
def normalize_params (params : Option (List (String × FValue))) : List (String × FValue) :=
  match params with
  | Option.none => [("$format", FValue.str "json")]
  | some ps =>
      let normalized := ps.foldl normalizeStep []
      if normalized.any (fun kv => kv.1 = "$format") then normalized
      else normalized ++ [("$format", FValue.str "json")]

/-- C8: the raw-parameter normalization drops null and empty-string
entries, adds the dollar prefix to bare recognized keyword keys (with
lowercasing, as lstrip-lower computes it), always leaves a $format key
in the result, and maps the concrete example exactly as the spec states. -/
theorem normalize_params_spec :
    normalize_params (some [("filter", FValue.str "A eq B"), ("top", FValue.int 10)])
      = [("$filter", FValue.str "A eq B"), ("$top", FValue.int 10),
         ("$format", FValue.str "json")]
    ∧ (∀ (acc : List (String × FValue)) (k : String) (v : FValue),
        v = FValue.none ∨ v = FValue.str "" → normalizeStep acc (k, v) = acc)
    ∧ (∀ k : String, pyStrip k = k → k ≠ "" → pyStartsWith k "$" = false →
        pyLower k ∈ KEYWORD_KEYS → processKey k = some ("$" ++ pyLower k))
    ∧ (∀ ps, "$format" ∈ (normalize_params ps).map Prod.fst) := by
  refine ⟨rfl, ?_, ?_, ?_⟩
  · intro acc k v hv
    unfold normalizeStep
    rw [if_pos hv]
  · intro k hks hkne hkd hkw
    have hh : ∀ a, k.data.head? = some a → (a == '$') = false := by
      intro a ha
      unfold pyStartsWith at hkd
      rcases hd : k.data with _ | ⟨b, bs⟩
      · rw [hd] at ha; simp at ha
      · rw [hd] at ha hkd
        simp only [List.head?_cons, Option.some.injEq] at ha
        subst ha
        rw [show ("$".data) = ['$'] from rfl] at hkd
        rw [show (['$'].isPrefixOf (b :: bs)) = (('$' == b) && List.isPrefixOf [] bs)
          from rfl] at hkd
        simp at hkd
        simp [beq_iff_eq]
        intro hne
        exact hkd hne.symm
    have hl : pyLstripChar '$' k = k := by
      unfold pyLstripChar
      rw [dropWhile_eq_self_of_head k.data hh]
    unfold processKey
    rw [hks, if_neg hkne, hl, if_pos ⟨by simp [hkd], hkw⟩]
  · intro ps
    cases ps with
    | none => simp [normalize_params]
    | some l =>
        simp only [normalize_params]
        by_cases h : (l.foldl normalizeStep []).any (fun kv => kv.1 = "$format") = true
        · rw [if_pos h]
          rcases List.any_eq_true.mp h with ⟨kv, hmem, heq⟩
          simp only [decide_eq_true_eq] at heq
          exact List.mem_map.mpr ⟨kv, hmem, heq⟩
        · rw [if_neg h]
          simp

/-- Witness for normalize_params_spec: the bare key top is prefixed, and
a null-valued entry is dropped. -/
theorem normalize_params_spec_witness :
    processKey "top" = some "$top"
    ∧ normalizeStep [] ("x", FValue.none) = [] :=
  ⟨normalize_params_spec.2.2.1 "top" rfl (by decide) (by decide) (by decide),
   normalize_params_spec.2.1 [] "x" FValue.none (Or.inl rfl)⟩

/-! ## llm_client plan parsing (json.loads model and _parse_structured_plan) -/

mutual
/-- Parsed JSON values (numbers with a fraction or exponent, and the
NaN and Infinity constants json.loads admits, keep their lexeme). -/
inductive Json where
  | null
  | bool (b : Bool)
  | int (n : Int)
  | float (raw : String)
  | str (s : String)
  | arr (items : JItems)
  | obj (entries : JEntries)
/-- A sequence of JSON array items. -/
inductive JItems where
  | nil
  | cons (hd : Json) (tl : JItems)
/-- A sequence of JSON object entries in insertion order. -/
inductive JEntries where
  | nil
  | cons (key : String) (val : Json) (tl : JEntries)
end

/-- Build an item sequence from a plain list. -/
def JItems.ofList : List Json → JItems
  | [] => .nil
  | j :: rest => .cons j (JItems.ofList rest)

/-- Build an entry sequence from a plain list. -/
def JEntries.ofList : List (String × Json) → JEntries
  | [] => .nil
  | kv :: rest => .cons kv.1 kv.2 (JEntries.ofList rest)

/-- JSON whitespace. -/
def jsonWs (c : Char) : Bool := c = ' ' || c = '\t' || c = '\n' || c = '\r'

/-- Skip JSON whitespace. -/
def skipWs (l : List Char) : List Char := l.dropWhile jsonWs

/-- Hexadecimal digit value. -/
def hexVal (c : Char) : Option Nat :=
  if '0' ≤ c && c ≤ '9' then some (c.toNat - 48)
  else if 'a' ≤ c && c ≤ 'f' then some (c.toNat - 87)
  else if 'A' ≤ c && c ≤ 'F' then some (c.toNat - 55)
  else Option.none

/-- Four hexadecimal digits. -/
def parseHex4 : List Char → Option (Nat × List Char)
  | c1 :: c2 :: c3 :: c4 :: rest => do
      let v1 ← hexVal c1
      let v2 ← hexVal c2
      let v3 ← hexVal c3
      let v4 ← hexVal c4
      pure (((v1 * 16 + v2) * 16 + v3) * 16 + v4, rest)
  | _ => Option.none

/-- The body of a JSON string literal after the opening quote, strict
mode: control characters must be escaped; \\u escapes combine surrogate
pairs (a lone surrogate, which Python would keep in the str, is mapped
to U+FFFD since Lean characters are scalar values; no claim depends on
it). -/
def parseJStringBody : Nat → List Char → Option (List Char × List Char)
  | 0, _ => Option.none
  | fuel + 1, l =>
      match l with
      | [] => Option.none
      | '"' :: rest => some ([], rest)
      | '\\' :: e :: rest =>
          let simple : Char → Option Char := fun c =>
            match c with
            | '"' => some '"'
            | '\\' => some '\\'
            | '/' => some '/'
            | 'b' => some '\x08'
            | 'f' => some '\x0c'
            | 'n' => some '\n'
            | 'r' => some '\r'
            | 't' => some '\t'
            | _ => Option.none
          (match simple e with
          | some c =>
              (parseJStringBody fuel rest).map (fun pr => (c :: pr.1, pr.2))
          | Option.none =>
              if e = 'u' then
                match parseHex4 rest with
                | Option.none => Option.none
                | some (code, rest2) =>
                    if 0xD800 ≤ code ∧ code ≤ 0xDBFF then
                      match rest2 with
                      | '\\' :: 'u' :: rest3 =>
                          (match parseHex4 rest3 with
                          | some (low, rest4) =>
                              if 0xDC00 ≤ low ∧ low ≤ 0xDFFF then
                                let c := Char.ofNat
                                  (0x10000 + (code - 0xD800) * 1024 + (low - 0xDC00))
                                (parseJStringBody fuel rest4).map
                                  (fun pr => (c :: pr.1, pr.2))
                              else
                                (parseJStringBody fuel rest2).map
                                  (fun pr => ('\uFFFD' :: pr.1, pr.2))
                          | Option.none =>
                              (parseJStringBody fuel rest2).map
                                (fun pr => ('\uFFFD' :: pr.1, pr.2)))
                      | _ =>
                          (parseJStringBody fuel rest2).map
                            (fun pr => ('\uFFFD' :: pr.1, pr.2))
                    else if 0xDC00 ≤ code ∧ code ≤ 0xDFFF then
                      (parseJStringBody fuel rest2).map
                        (fun pr => ('\uFFFD' :: pr.1, pr.2))
                    else
                      (parseJStringBody fuel rest2).map
                        (fun pr => (Char.ofNat code :: pr.1, pr.2))
              else Option.none)
      | c :: rest =>
          if c.toNat < 0x20 then Option.none
          else (parseJStringBody fuel rest).map (fun pr => (c :: pr.1, pr.2))

/-- Digit run. -/
def takeDigits (l : List Char) : List Char × List Char :=
  (l.takeWhile Char.isDigit, l.dropWhile Char.isDigit)

/-- JSON number grammar: optional minus, integer part 0 or nonzero-led,
optional fraction, optional exponent; a plain integer becomes int, the
rest keep their lexeme as float. -/
def parseNumber (l : List Char) : Option (Json × List Char) :=
  let (neg, l1) := match l with | '-' :: r => (true, r) | _ => (false, l)
  match l1 with
  | c :: _ =>
      if c.isDigit then
        let (ds, l2) := takeDigits l1
        if ds.length > 1 ∧ c = '0' then Option.none
        else
          let intVal : Int := Int.ofNat (ds.foldl (fun a d => a * 10 + (d.toNat - 48)) 0)
          let (frac, l3) :=
            match l2 with
            | '.' :: r =>
                let (fs, r2) := takeDigits r
                if fs = [] then (Option.none, l2) else (some ('.' :: fs), r2)
            | _ => (Option.none, l2)
          match frac with
          | Option.none =>
              (match l3 with
              | e :: r =>
                  if e = 'e' ∨ e = 'E' then
                    let (sgn, r2) := match r with
                      | '+' :: rr => (['+'], rr)
                      | '-' :: rr => (['-'], rr)
                      | _ => ([], r)
                    let (es, r3) := takeDigits r2
                    if es = [] then Option.none
                    else some (.float ⟨(if neg then ['-'] else []) ++ ds
                      ++ e :: sgn ++ es⟩, r3)
                  else some (.int (if neg then -intVal else intVal), l3)
              | [] => some (.int (if neg then -intVal else intVal), []))
          | some fr =>
              (match l3 with
              | e :: r =>
                  if e = 'e' ∨ e = 'E' then
                    let (sgn, r2) := match r with
                      | '+' :: rr => (['+'], rr)
                      | '-' :: rr => (['-'], rr)
                      | _ => ([], r)
                    let (es, r3) := takeDigits r2
                    if es = [] then Option.none
                    else some (.float ⟨(if neg then ['-'] else []) ++ ds ++ fr
                      ++ e :: sgn ++ es⟩, r3)
                  else some (.float ⟨(if neg then ['-'] else []) ++ ds ++ fr⟩, l3)
              | [] => some (.float ⟨(if neg then ['-'] else []) ++ ds ++ fr⟩, []))
      else Option.none
  | [] => Option.none

mutual
/-- JSON value parser (expects no leading whitespace). -/
def parseJValue : Nat → List Char → Option (Json × List Char)
  | 0, _ => Option.none
  | fuel + 1, l =>
      match l with
      | '{' :: rest => parseJMembers fuel (skipWs rest) [] true
      | '[' :: rest => parseJItems fuel (skipWs rest) [] true
      | '"' :: rest => (parseJStringBody (fuel + 1) rest).map (fun pr => (.str ⟨pr.1⟩, pr.2))
      | 't' :: 'r' :: 'u' :: 'e' :: r => some (.bool true, r)
      | 'f' :: 'a' :: 'l' :: 's' :: 'e' :: r => some (.bool false, r)
      | 'n' :: 'u' :: 'l' :: 'l' :: r => some (.null, r)
      | 'N' :: 'a' :: 'N' :: r => some (.float "nan", r)
      | 'I' :: 'n' :: 'f' :: 'i' :: 'n' :: 'i' :: 't' :: 'y' :: r => some (.float "inf", r)
      | '-' :: 'I' :: 'n' :: 'f' :: 'i' :: 'n' :: 'i' :: 't' :: 'y' :: r =>
          some (.float "-inf", r)
      | _ => parseNumber l
  termination_by structural fuel => fuel
/-- Object member parser, after the opening brace (first is true before
the first member). -/
def parseJMembers : Nat → List Char → List (String × Json) → Bool →
    Option (Json × List Char)
  | 0, _, _, _ => Option.none
  | fuel + 1, l, acc, first =>
      match l with
      | '}' :: rest =>
          if first then some (.obj (JEntries.ofList acc.reverse), rest) else Option.none
      | '"' :: rest =>
          (match parseJStringBody (fuel + 1) rest with
          | Option.none => Option.none
          | some (key, rest2) =>
              match skipWs rest2 with
              | ':' :: rest3 =>
                  (match parseJValue fuel (skipWs rest3) with
                  | Option.none => Option.none
                  | some (v, rest4) =>
                      match skipWs rest4 with
                      | ',' :: rest5 =>
                          parseJMembers fuel (skipWs rest5) ((⟨key⟩, v) :: acc) false
                      | '}' :: rest5 =>
                          some (.obj (JEntries.ofList ((((⟨key⟩ : String), v) :: acc).reverse)),
                            rest5)
                      | _ => Option.none)
              | _ => Option.none)
      | _ => Option.none
  termination_by structural fuel => fuel
/-- Array item parser, after the opening bracket. -/
def parseJItems : Nat → List Char → List Json → Bool → Option (Json × List Char)
  | 0, _, _, _ => Option.none
  | fuel + 1, l, acc, first =>
      match l with
      | ']' :: rest =>
          if first then some (.arr (JItems.ofList acc.reverse), rest) else Option.none
      | _ =>
          match parseJValue fuel l with
          | Option.none => Option.none
          | some (v, rest) =>
              match skipWs rest with
              | ',' :: rest2 => parseJItems fuel (skipWs rest2) (v :: acc) false
              | ']' :: rest2 => some (.arr (JItems.ofList (v :: acc).reverse), rest2)
              | _ => Option.none
  termination_by structural fuel => fuel
end

/-- Model of json.loads: parse one value with surrounding whitespace and
require the input to be fully consumed; none models JSONDecodeError. -/
def jsonLoads (s : String) : Option Json :=
  match parseJValue (s.data.length + 1) (skipWs s.data) with
  | some (v, rest) => if skipWs rest = [] then some v else Option.none
  | Option.none => Option.none

/-- Model of the _JSON_PATTERN regex search (greedy brace span with
DOTALL): from the first opening brace to the last closing brace after
it, if any. -/
def jsonSpan (l : List Char) : Option (List Char) :=
  match splitFirst '{' l with
  | Option.none => Option.none
  | some (_, after) =>
      match splitFirst '}' after.reverse with
      | Option.none => Option.none
      | some (_, revRest) => some ('{' :: (revRest.reverse ++ ['}']))

/-- Dict lookup over object entries, later assignment winning as for
dict built by json.loads. -/
def jsonLookup : JEntries → String → Option Json
  | .nil, _ => Option.none
  | .cons key v tl, k =>
      match jsonLookup tl k with
      | some r => some r
      | Option.none => if key = k then some v else Option.none

/-- The FilterOperator enum values accepted by the plan model. -/
def opFromStr (s : String) : Option FilterOperator :=
  if s = "eq" then some .eq
  else if s = "ne" then some .ne
  else if s = "gt" then some .gt
  else if s = "lt" then some .lt
  else if s = "ge" then some .ge
  else if s = "le" then some .le
  else Option.none

/-- Values a condition may carry (str, int, bool, None; floats are not
modelled and are rejected here). -/
def valueFromJson : Json → Option FValue
  | .str s => some (.str s)
  | .int n => some (.int n)
  | .bool b => some (.bool b)
  | .null => some FValue.none
  | _ => Option.none

/-- The value_type literal set of the plan model. -/
def VALUE_TYPES : List String := ["string", "number", "boolean", "datetime", "guid"]

/-- Shape validation of one leaf condition object. -/
def condFromJson (j : Json) : Option FilterCondition :=
  match j with
  | .obj es =>
      match jsonLookup es "field", jsonLookup es "operator", jsonLookup es "value" with
      | some (.str f), some (.str o), some vj =>
          (match opFromStr o, valueFromJson vj with
          | some op, some v =>
              (match jsonLookup es "value_type" with
              | some (.str s) => if s ∈ VALUE_TYPES then some ⟨f, op, v, s⟩ else Option.none
              | some _ => Option.none
              | Option.none => some ⟨f, op, v, "string"⟩)
          | _, _ => Option.none)
      | _, _, _ => Option.none
  | _ => Option.none

mutual
/-- Shape validation of a filter group object (fuelled; the caller
passes a bound exceeding the nesting depth). -/
def groupFromJsonF : Nat → Json → Option FilterGroup
  | 0, _ => Option.none
  | fuel + 1, j =>
      match j with
      | .obj es =>
          (match (match jsonLookup es "logic" with
                  | some (.str s) => if s = "and" ∨ s = "or" then some s else Option.none
                  | some _ => Option.none
                  | Option.none => some "and") with
          | Option.none => Option.none
          | some lg =>
              match jsonLookup es "conditions" with
              | some (.arr items) => (nodesFromJsonF fuel items).map (fun ns => ⟨lg, ns⟩)
              | _ => Option.none)
      | _ => Option.none
  termination_by structural fuel => fuel
/-- Shape validation of the members of a conditions list: a member is a
leaf condition or, failing that, a nested group (the union order of the
plan model). -/
def nodesFromJsonF : Nat → JItems → Option FNodes
  | 0, _ => Option.none
  | fuel + 1, .nil => some .nil
  | fuel + 1, .cons j tl =>
      match condFromJson j with
      | some c => (nodesFromJsonF fuel tl).map (.cons (.cond c))
      | Option.none =>
          match groupFromJsonF fuel j with
          | some g => (nodesFromJsonF fuel tl).map (.cons (.group g.logic g.conditions))
          | Option.none => Option.none
  termination_by structural fuel => fuel
end

/-- A list of strings from a JSON array. -/
def strListFromJson : JItems → Option (List String)
  | .nil => some []
  | .cons (.str s) tl => (strListFromJson tl).map (s :: ·)
  | .cons _ _ => Option.none

/-- The orderby pairs: two-element arrays of field and asc or desc. -/
def orderbyFromJson : JItems → Option (List (String × String))
  | .nil => some []
  | .cons (.arr (.cons (.str f) (.cons (.str d) .nil))) tl =>
      if d = "asc" ∨ d = "desc" then (orderbyFromJson tl).map ((f, d) :: ·)
      else Option.none
  | .cons _ _ => Option.none

/-- A word character of the entity pattern (ASCII alphanumerics and
underscore; non-ASCII characters stand in for the Unicode letters and
digits Python \\w accepts). -/
def isWordChar (c : Char) : Bool := c.isAlphanum || c = '_' || c.toNat > 127

/-- The entity format pattern of the plan model, anchored both sides. -/
def entityFormatOk (s : String) : Bool :=
  ENTITY_PREFIXES.any (fun p =>
    p.isPrefixOf s.data &&
    (match s.data.drop p.length with
     | '_' :: rest => (rest ≠ []) && rest.all isWordChar
     | _ => false))

/-- Model of QueryPlan.model_validate: required entity with the format
invariant, optional filter group, select, orderby, top in 1..1000 and
expand, unknown keys ignored.  Pydantic coercion subtleties beyond these
shapes are out of scope. -/
def planFromJson (fuel : Nat) (j : Json) : Except String QueryPlan :=
  match j with
  | .obj es =>
      match jsonLookup es "entity" with
      | some (.str e) =>
          if entityFormatOk e then
            match (match jsonLookup es "filter_group" with
                   | Option.none => some Option.none
                   | some .null => some Option.none
                   | some j2 => (groupFromJsonF fuel j2).map some) with
            | Option.none => .error "filter_group is invalid"
            | some fg =>
                match (match jsonLookup es "select" with
                       | Option.none => some []
                       | some (.arr items) => strListFromJson items
                       | some _ => Option.none) with
                | Option.none => .error "select is invalid"
                | some sel =>
                    match (match jsonLookup es "orderby" with
                           | Option.none => some []
                           | some (.arr items) => orderbyFromJson items
                           | some _ => Option.none) with
                    | Option.none => .error "orderby is invalid"
                    | some ob =>
                        match (match jsonLookup es "top" with
                               | Option.none => some Option.none
                               | some .null => some Option.none
                               | some (.int n) =>
                                   if 1 ≤ n ∧ n ≤ 1000 then some (some n) else Option.none
                               | some _ => Option.none) with
                        | Option.none => .error "top is invalid"
                        | some tp =>
                            match (match jsonLookup es "expand" with
                                   | Option.none => some []
                                   | some (.arr items) => strListFromJson items
                                   | some _ => Option.none) with
                            | Option.none => .error "expand is invalid"
                            | some ex => .ok ⟨e, fg, sel, ob, tp, ex⟩
          else .error ("Invalid entity format: " ++ e)
      | some _ => .error "entity must be a string"
      | Option.none => .error "entity is required"
  | _ => .error "plan must be an object"

/-- Error classes leaving _parse_structured_plan: the classified
PlanParseError, or the raw JSONDecodeError of the unguarded fallback
json.loads call. -/
inductive PErr where
  | planParse (msg : String)
  | jsonDecode
deriving DecidableEq

/-- Model of llm_client._parse_structured_plan.  The direct json.loads is
guarded, and model_validate failures are classified; the fallback
json.loads on the extracted brace span is not guarded, so its failure is
the raw jsonDecode error. -/
def parseStructuredPlan (text : String) : Except PErr QueryPlan :=
  if pyStrip text = "" then .error (.planParse "LLM response is empty")
  else
    let raw := pyStrip text
    let fuel := raw.data.length + 1
    match jsonLoads raw with
    | some parsed =>
        (match planFromJson fuel parsed with
        | .ok p => .ok p
        | .error m => .error (.planParse ("Invalid plan structure: " ++ m)))
    | Option.none =>
        match jsonSpan raw.data with
        | Option.none => .error (.planParse "LLM response is not valid JSON")
        | some span =>
            match jsonLoads ⟨span⟩ with
            | some parsed =>
                (match planFromJson fuel parsed with
                | .ok p => .ok p
                | .error m => .error (.planParse ("Invalid plan structure: " ++ m)))
            | Option.none => .error .jsonDecode

/-- The parse step of generate_plan: a PlanParseError is re-raised with
the raw text appended; the unclassified JSONDecodeError passes through
untouched. -/
def planParseStage (text : String) : Except PErr QueryPlan :=
  match parseStructuredPlan text with
  | .ok p => .ok p
  | .error (.planParse m) => .error (.planParse (m ++ ". Raw: " ++ text))
  | .error .jsonDecode => .error .jsonDecode

/-- C5 (code bug): on the input brace-a-brace the direct parse fails, the
pattern extracts the span, and the unguarded fallback json.loads raises
the raw JSONDecodeError, which generate_plan does not catch: the failure
is unclassified and carries no raw text.  The other conjuncts show the
classified paths the claim correctly describes, and the final conjunct
characterizes exactly when the unclassified escape happens. -/
theorem plan_parse_unclassified_escape :
    parseStructuredPlan "\x7ba\x7d" = .error PErr.jsonDecode
    ∧ planParseStage "\x7ba\x7d" = .error PErr.jsonDecode
    ∧ parseStructuredPlan "nonsense" = .error (.planParse "LLM response is not valid JSON")
    ∧ planParseStage "nonsense"
        = .error (.planParse "LLM response is not valid JSON. Raw: nonsense")
    ∧ (∃ p, parseStructuredPlan "noise \x7b\"entity\": \"Catalog_Items\"\x7d tail" = .ok p
        ∧ p.entity = "Catalog_Items")
    ∧ parseStructuredPlan "" = .error (.planParse "LLM response is empty")
    ∧ planParseStage "\x7b\"entity\": \"bad\"\x7d"
        = .error (.planParse
            "Invalid plan structure: Invalid entity format: bad. Raw: \x7b\"entity\": \"bad\"\x7d")
    ∧ (∀ text, parseStructuredPlan text = .error PErr.jsonDecode →
        jsonLoads (pyStrip text) = Option.none
        ∧ ∃ span, jsonSpan (pyStrip text).data = some span ∧ jsonLoads ⟨span⟩ = Option.none) := by
  refine ⟨rfl, rfl, rfl, rfl, ⟨_, rfl, rfl⟩, rfl, rfl, ?_⟩
  intro text h
  unfold parseStructuredPlan at h
  by_cases h0 : pyStrip text = ""
  · rw [if_pos h0] at h
    simp at h
  · rw [if_neg h0] at h
    simp only at h
    cases hjl : jsonLoads (pyStrip text) with
    | some parsed =>
        rw [hjl] at h
        dsimp only at h
        cases hpf : planFromJson ((pyStrip text).data.length + 1) parsed with
        | ok p => rw [hpf] at h; simp at h
        | error m => rw [hpf] at h; simp at h
    | none =>
        rw [hjl] at h
        dsimp only at h
        cases hsp : jsonSpan (pyStrip text).data with
        | none => rw [hsp] at h; simp at h
        | some span =>
            rw [hsp] at h
            dsimp only at h
            cases hjl2 : jsonLoads ⟨span⟩ with
            | some parsed =>
                rw [hjl2] at h
                dsimp only at h
                cases hpf : planFromJson ((pyStrip text).data.length + 1) parsed with
                | ok p => rw [hpf] at h; simp at h
                | error m => rw [hpf] at h; simp at h
            | none => exact ⟨rfl, span, rfl, hjl2⟩

/-- Witness for plan_parse_unclassified_escape at the concrete failing
input: the escape characterization instantiated at brace-a-brace. -/
theorem plan_parse_unclassified_escape_witness :
    jsonLoads (pyStrip "\x7ba\x7d") = Option.none
    ∧ ∃ span, jsonSpan (pyStrip "\x7ba\x7d").data = some span ∧ jsonLoads ⟨span⟩ = Option.none :=
  plan_parse_unclassified_escape.2.2.2.2.2.2.2 "\x7ba\x7d" rfl

/-! ## llm_client and odata_client retry behavior -/

/-- The exception classes relevant to the two retry-wrapped calls. -/
inductive PyExc where
  | httpxTimeout
  | httpxNetworkError
  | otherException (msg : String)
  | llmClientError (msg : String)
  | planParseError (msg : String)
  | jsonDecodeError
  | aiohttpClientError (msg : String)
  | asyncioTimeoutError
  | odataClientError (msg : String)
deriving DecidableEq

/-- Model of str(exc) for the wrapped messages. -/
def excMsg : PyExc → String
  | .httpxTimeout => "ReadTimeout"
  | .httpxNetworkError => "ConnectError"
  | .otherException m => m
  | .llmClientError m => m
  | .planParseError m => m
  | .jsonDecodeError => "JSONDecodeError"
  | .aiohttpClientError m => m
  | .asyncioTimeoutError => "TimeoutError"
  | .odataClientError m => m

/-- The retry predicate of generate_plan:
retry_if_exception_type((httpx.TimeoutException, httpx.NetworkError)). -/
def retryPredLLM : PyExc → Bool
  | .httpxTimeout => true
  | .httpxNetworkError => true
  | _ => false

/-- The retry predicate of fetch:
retry_if_exception_type((aiohttp.ClientError, asyncio.TimeoutError)). -/
def retryPredOData : PyExc → Bool
  | .aiohttpClientError _ => true
  | .asyncioTimeoutError => true
  | _ => false

/-- The tenacity loop with stop_after_attempt: run attempt i; a success
or a non-retryable error stops at once; a retryable error retries while
attempts remain.  Returns the outcome and the number of attempts made
(the final error of an exhausted retry is wrapped in RetryError by
tenacity; only the count and the carried error matter here). -/
def retryRunGo (pred : PyExc → Bool) (runs : Nat → Except PyExc α) :
    Nat → Nat → Except PyExc α × Nat
  | i, 0 => (runs i, i + 1)
  | i, rem + 1 =>
      match runs i with
      | .ok a => (.ok a, i + 1)
      | .error e => if pred e then retryRunGo pred runs (i + 1) rem else (.error e, i + 1)

/-- Retry with at most maxAttempts attempts. -/
def retryRun (pred : PyExc → Bool) (maxAttempts : Nat)
    (runs : Nat → Except PyExc α) : Except PyExc α × Nat :=
  retryRunGo pred runs 0 (maxAttempts - 1)

/-- The assistant-text shapes _extract_llm_text recognizes. -/
inductive LLMPayload where
  | choicesMessageContent (text : String)
  | choicesText (text : String)
  | resultField (text : String)
  | noTextContent

/-- The response body: JSON-decodable payload or not. -/
inductive LLMBody where
  | invalidJson
  | payload (p : LLMPayload)

/-- An HTTP response of the chat-completions endpoint. -/
structure LLMResponse where
  status : Nat
  body : LLMBody

/-- What one POST does: raise, or return a response. -/
inductive PostOutcome where
  | raises (e : PyExc)
  | responds (r : LLMResponse)

/-- The try block of generate_plan: the first POST, and on a status of
400 or more with structured output requested, the fallback POST without
response_format. -/
def postRegion (useStructured : Bool) (post1 post2 : PostOutcome) :
    Except PyExc LLMResponse :=
  match post1 with
  | .raises e => .error e
  | .responds r1 =>
      if r1.status ≥ 400 ∧ useStructured then
        match post2 with
        | .raises e => .error e
        | .responds r2 => .ok r2
      else .ok r1

/-- Model of _extract_llm_text. -/
def extractLLMText : LLMPayload → Except PyExc String
  | .choicesMessageContent t => .ok t
  | .choicesText t => .ok t
  | .resultField t => .ok t
  | .noTextContent =>
      .error (.llmClientError "Unexpected LLM response format, no text content found")

/-- Model of one generate_plan attempt.  Everything the POST region
raises, transport failures included, is caught by the blanket except and
re-raised as LLMClientError; later stages classify their own failures. -/
def generatePlanAttempt (api_key model_id : String) (useStructured : Bool)
    (post1 post2 : PostOutcome) : Except PyExc QueryPlan :=
  if api_key = "" then .error (.llmClientError "API_KEY is not set")
  else if model_id = "" then .error (.llmClientError "CLOUD_MODEL_ID is not set")
  else
    match postRegion useStructured post1 post2 with
    | .error e => .error (.llmClientError ("LLM request failed: " ++ excMsg e))
    | .ok resp =>
        if resp.status ≥ 400 then
          .error (.llmClientError ("LLM HTTP " ++ toString resp.status))
        else
          match resp.body with
          | .invalidJson => .error (.llmClientError "Cannot decode LLM response JSON")
          | .payload p =>
              match extractLLMText p with
              | .error e => .error e
              | .ok text =>
                  match planParseStage text with
                  | .ok plan => .ok plan
                  | .error (.planParse m) => .error (.planParseError m)
                  | .error .jsonDecode => .error .jsonDecodeError

/-- generate_plan under its retry decorator, over a sequence of per-
attempt POST outcomes. -/
def generate_plan_retried (api_key model_id : String) (useStructured : Bool)
    (outcomes : Nat → PostOutcome × PostOutcome) : Except PyExc QueryPlan × Nat :=
  retryRun retryPredLLM 3
    (fun i => generatePlanAttempt api_key model_id useStructured (outcomes i).1 (outcomes i).2)

/-- What one OData GET does: raise a client error, raise a timeout, or
respond with a status and a JSON-decodable body or not. -/
inductive ODataOutcome where
  | raisesClientError (msg : String)
  | raisesTimeout
  | responds (status : Nat) (jsonOk : Bool)

/-- The result envelope of fetch (payload and elapsed time are opaque
to the retry claims and not modelled). -/
structure ODataEnvelope where
  url : String
  status_code : Nat

/-- The parameter dict fetch builds from the plan before the GET. -/
def fetchBuildParams (plan : QueryPlan) (extra : List (String × FValue)) :
    Except PyExc (List (String × FValue)) :=
  match (match plan.filter_group with
         | some g =>
             (match filterBuild (some g) with
             | Except.error m => Except.error (PyExc.otherException m)
             | Except.ok fs =>
                 Except.ok (if fs ≠ "" then [("$filter", FValue.str fs)] else []))
         | Option.none => (Except.ok [] : Except PyExc (List (String × FValue)))) with
  | Except.error e => Except.error e
  | Except.ok filterPart =>
      let selectPart :=
        if plan.select ≠ [] then [("$select", FValue.str (pyJoin "," plan.select))] else []
      let topPart :=
        match plan.top with
        | some t => if t ≠ 0 then [("$top", FValue.int t)] else []
        | Option.none => []
      let orderbyPart :=
        if plan.orderby ≠ [] then
          [("$orderby", FValue.str (pyJoin ","
            (plan.orderby.map (fun fd : String × String => fd.1 ++ " " ++ fd.2))))]
        else []
      let expandPart :=
        if plan.expand ≠ [] then [("$expand", FValue.str (pyJoin "," plan.expand))] else []
      Except.ok (extra.foldl
        (fun (d : List (String × FValue)) (kv : String × FValue) => dictSet d kv.1 kv.2)
        (filterPart ++ selectPart ++ topPart ++ orderbyPart ++ expandPart))

/-- Model of one fetch attempt: build parameters and URL (URL failures
become ODataClientError at once), then the GET; an aiohttp ClientError
is wrapped into ODataClientError by the inner except, while an asyncio
timeout escapes it; application-level failures raise ODataClientError. -/
def fetchAttempt (base_url : String) (plan : QueryPlan)
    (extra : List (String × FValue)) (outcome : ODataOutcome) :
    Except PyExc ODataEnvelope :=
  match fetchBuildParams plan extra with
  | .error e => .error e
  | .ok params =>
      match urlBuild base_url plan.entity params with
      | .error m => .error (.odataClientError m)
      | .ok url =>
          match outcome with
          | .raisesTimeout => .error .asyncioTimeoutError
          | .raisesClientError m => .error (.odataClientError ("OData request failed: " ++ m))
          | .responds status jsonOk =>
              if status ≥ 400 then .error (.odataClientError ("OData HTTP " ++ toString status))
              else if ¬jsonOk then .error (.odataClientError "Failed to parse OData JSON")
              else .ok ⟨url, status⟩

/-- fetch under its retry decorator. -/
def fetch_retried (base_url : String) (plan : QueryPlan)
    (extra : List (String × FValue)) (outcomes : Nat → ODataOutcome) :
    Except PyExc ODataEnvelope × Nat :=
  retryRun retryPredOData 3 (fun i => fetchAttempt base_url plan extra (outcomes i))

theorem retryRunGo_count_le {α : Type} (pred : PyExc → Bool) (runs : Nat → Except PyExc α) :
    ∀ (rem i : Nat), (retryRunGo pred runs i rem).2 ≤ i + rem + 1 := by
  intro rem
  induction rem with
  | zero => intro i; simp [retryRunGo]
  | succ rem ih =>
      intro i
      unfold retryRunGo
      cases hr : runs i with
      | ok a => simp [hr]
      | error e =>
          dsimp only
          by_cases hp : pred e
          · rw [if_pos hp]
            have := ih (i + 1)
            omega
          · rw [if_neg hp]
            omega

theorem retryRunGo_stop {α : Type} (pred : PyExc → Bool) (runs : Nat → Except PyExc α)
    (i rem : Nat) (e : PyExc) (hr : runs i = .error e) (hp : pred e = false) :
    retryRunGo pred runs i rem = (.error e, i + 1) := by
  cases rem with
  | zero => simp [retryRunGo, hr]
  | succ rem => simp [retryRunGo, hr, hp]

/-- A minimal plan for the fetch evaluations. -/
def planC1 : QueryPlan := ⟨"Catalog_X", Option.none, [], [], Option.none, []⟩

/-- C1 (code bug): the LLM client wraps every exception of its POST
region, transport failures included, into LLMClientError, which its
retry predicate never retries, so a timeout or connection failure ends
after one attempt; the OData client likewise wraps aiohttp ClientError
into ODataClientError, so connection failures end after one attempt,
while a timeout escapes the wrap and is retried to the three-attempt
limit.  The final conjuncts show what does hold: at most three attempts
ever, and parse or unclassified decode failures are never retried. -/
theorem retry_policy_divergence :
    generate_plan_retried "key" "model" true
        (fun _ => (.raises .httpxTimeout, .raises .httpxTimeout))
      = (.error (.llmClientError "LLM request failed: ReadTimeout"), 1)
    ∧ generate_plan_retried "key" "model" true
        (fun _ => (.raises .httpxNetworkError, .raises .httpxNetworkError))
      = (.error (.llmClientError "LLM request failed: ConnectError"), 1)
    ∧ fetch_retried "http://h" planC1 [] (fun _ => .raisesClientError "Cannot connect")
      = (.error (.odataClientError "OData request failed: Cannot connect"), 1)
    ∧ fetch_retried "http://h" planC1 [] (fun _ => .raisesTimeout)
      = (.error .asyncioTimeoutError, 3)
    ∧ generate_plan_retried "key" "model" true
        (fun _ => (.responds ⟨200, .payload (.choicesMessageContent "nonsense")⟩,
                   .responds ⟨200, .payload (.choicesMessageContent "nonsense")⟩))
      = (.error (.planParseError "LLM response is not valid JSON. Raw: nonsense"), 1)
    ∧ generate_plan_retried "key" "model" true
        (fun _ => (.responds ⟨200, .payload (.choicesMessageContent "\x7ba\x7d")⟩,
                   .responds ⟨200, .payload (.choicesMessageContent "\x7ba\x7d")⟩))
      = (.error .jsonDecodeError, 1)
    ∧ (∀ runs : Nat → Except PyExc QueryPlan, (retryRun retryPredLLM 3 runs).2 ≤ 3)
    ∧ (∀ runs : Nat → Except PyExc ODataEnvelope, (retryRun retryPredOData 3 runs).2 ≤ 3)
    ∧ (∀ (runs : Nat → Except PyExc QueryPlan) (m : String),
        runs 0 = .error (.planParseError m) →
        retryRun retryPredLLM 3 runs = (.error (.planParseError m), 1)) := by
  refine ⟨rfl, rfl, rfl, rfl, rfl, rfl, ?_, ?_, ?_⟩
  · intro runs
    exact retryRunGo_count_le retryPredLLM runs 2 0
  · intro runs
    exact retryRunGo_count_le retryPredOData runs 2 0
  · intro runs m h
    exact retryRunGo_stop retryPredLLM runs 0 2 _ h rfl

/-- Witness for retry_policy_divergence: a parse failure on the first
attempt is returned at once, without retry. -/
theorem retry_policy_divergence_witness :
    retryRun retryPredLLM 3
        (fun _ => (.error (.planParseError "bad") : Except PyExc QueryPlan))
      = (.error (.planParseError "bad"), 1) :=
  retry_policy_divergence.2.2.2.2.2.2.2.2
    (fun _ => (.error (.planParseError "bad") : Except PyExc QueryPlan)) "bad" rfl
